import Mathlib

/-!
# Verification of the SQL optimization agent core (sgl-agent)

Shallow embedding of the task orchestrator (`sql_agent/task_manager.py`),
the analysis retry/repair protocol and rewrite engine
(`sql_agent/llm_analyzer.py`) and the data model (`sql_agent/models.py`),
together with proofs of the testable properties stated in the design
specification.

Conventions used throughout:
* Python dictionaries keyed by strings become association lists
  `List (String × _)`; dict insertion order is preserved.
* Machine integers are `Nat`/`Int`; the single floating-point comparison in
  the source (`cardinality < row_count * 0.5`) is embedded as the equivalent
  integer comparison `2 * cardinality < row_count`.
* External collaborators (the OpenAI network client, `sqlglot`'s parser, the
  database statistics connector) are inputs to the embedded functions: the
  code under verification is everything the repository computes after those
  collaborators answer.
* Python's `\w` character class is embedded at ASCII level
  (`Char.isAlphanum || c = '_'`), which covers every identifier the system
  manipulates.
-/

namespace SqlAgent

/-! ## Basic string utilities shared by the embedding -/

/-- Python's `\w` word-character class (ASCII fragment). -/
def isWordChar (c : Char) : Bool := c.isAlphanum || c == '_'

/-- `sub in s` for Python strings. -/
def containsSubstr (s sub : String) : Bool := decide (sub.toList <:+: s.toList)

/-- `s.lower()` (per-character, ASCII). -/
def lowerStr (s : String) : String := String.mk (s.toList.map Char.toLower)

/-- `s.upper()` (per-character, ASCII). -/
def upperStr (s : String) : String := String.mk (s.toList.map Char.toUpper)

/-- `s[:n]` — kernel-computable string prefix. -/
def takeStr (s : String) (n : Nat) : String := String.mk (s.toList.take n)

/-- Python's `str.strip()` (ASCII whitespace). -/
def stripStr (s : String) : String :=
  String.mk (((s.toList.dropWhile Char.isWhitespace).reverse.dropWhile
    Char.isWhitespace).reverse)

/-- `s.startswith(pre)` — kernel-computable. -/
def startsWithStr (s pre : String) : Bool := pre.toList.isPrefixOf s.toList

/-- `sep.join(parts)` — kernel-computable `String.intercalate`. -/
def joinWith (sep : String) : List String → String
  | [] => ""
  | [x] => x
  | x :: y :: xs => x ++ sep ++ joinWith sep (y :: xs)

/-- Fuel-driven removal of every occurrence of `pat` (Python
`s.replace(pat, "")` for a non-empty pattern). -/
def removeAllGo (pat : List Char) : Nat → List Char → List Char
  | 0, l => l
  | _ + 1, [] => []
  | fuel + 1, c :: rest =>
    if pat.isPrefixOf (c :: rest) then removeAllGo pat fuel ((c :: rest).drop pat.length)
    else c :: removeAllGo pat fuel rest

/-- `s.replace(pat, "")`. -/
def replaceRemove (s pat : String) : String :=
  String.mk (removeAllGo pat.toList s.toList.length s.toList)

/-- `s.split(sep)` for a single-character separator — kernel-computable. -/
def splitOnChar (sep : Char) : List Char → List (List Char)
  | [] => [[]]
  | c :: rest =>
    match splitOnChar sep rest with
    | [] => [[c]]
    | h :: t => if c == sep then [] :: h :: t else (c :: h) :: t

instance {e a : Type} [DecidableEq e] [DecidableEq a] : DecidableEq (Except e a) := fun x y =>
  match x, y with
  | .ok u, .ok v =>
    if h : u = v then isTrue (by rw [h]) else isFalse (by intro hc; cases hc; exact h rfl)
  | .error u, .error v =>
    if h : u = v then isTrue (by rw [h]) else isFalse (by intro hc; cases hc; exact h rfl)
  | .ok _, .error _ => isFalse (by intro hc; cases hc)
  | .error _, .ok _ => isFalse (by intro hc; cases hc)

/-! ## Data model — `sql_agent/models.py` -/

/-- `TaskStatus` enumeration (models.py line 14). -/
inductive TaskStatus
  | RUNNING
  | DONE
  | FAILED
deriving DecidableEq, Repr

/-- One entry of a `ddl`/`migrations` list: a dict `{"statement": ...}`. -/
structure Stmt where
  statement : String
deriving DecidableEq, Repr

/-- One input query: dict with required keys `queryid`, `query`,
`runquantity` (models.py lines 55–64 validate their presence). -/
structure Query where
  queryid : String
  query : String
  runquantity : Nat
deriving DecidableEq, Repr

/-- One rewritten query of an `OptimizationResult`: the source returns only
`queryid` and `query` (llm_analyzer.py lines 675–678). -/
structure RewrittenQuery where
  queryid : String
  query : String
deriving DecidableEq, Repr

/-- `OptimizationRequest` (models.py line 27). -/
structure OptimizationRequest where
  url : String
  ddl : List Stmt
  queries : List Query
deriving DecidableEq, Repr

/-- `OptimizationResult` (models.py line 67). -/
structure OptimizationResult where
  ddl : List Stmt
  migrations : List Stmt
  queries : List RewrittenQuery
  quality_score : Option Int
deriving DecidableEq, Repr

/-- `Task` (models.py line 75).  The pydantic model has exactly these
fields; note that it carries *no* creation timestamp. -/
structure Task where
  status : TaskStatus
  request : OptimizationRequest
  result : Option OptimizationResult
  error : Option String
deriving DecidableEq, Repr

/-! ## Task orchestrator state — `sql_agent/task_manager.py` -/

/-- The orchestrator's error counters (task_manager.py lines 51–58). -/
structure ErrorStats where
  timeout_errors : Nat
  llm_errors : Nat
  validation_errors : Nat
  database_errors : Nat
  total_errors : Nat
  queue_full_errors : Nat
deriving DecidableEq, Repr

/-- All-zero counters, the initial value. -/
def ErrorStats.init : ErrorStats := ⟨0, 0, 0, 0, 0, 0⟩

/-- The mutable state of `SimpleTaskManager`: the task registry (a Python
dict in insertion order), the queue ceiling and retention configuration and
the error counters. -/
structure ManagerState where
  tasks : List (String × Task)
  maxQueueSize : Nat
  cleanupAfterHours : Nat
  errorStats : ErrorStats
deriving DecidableEq, Repr

/-- `self.tasks.get(task_id)`. -/
def ManagerState.lookup (st : ManagerState) (taskId : String) : Option Task :=
  (st.tasks.find? (fun p => p.1 == taskId)).map (·.2)

/-- `create_task` (task_manager.py lines 83–105).  The fresh uuid4 value is
passed in as `freshId`.  Returns the submission outcome together with the
updated state: the queue-full branch increments `queue_full_errors` and
raises; otherwise a RUNNING task is registered and its id returned. -/
def createTask (st : ManagerState) (freshId : String) (req : OptimizationRequest) :
    Except String String × ManagerState :=
  if 0 < st.maxQueueSize ∧ st.maxQueueSize ≤ st.tasks.length then
    (.error ("Очередь задач переполнена. Максимум " ++ toString st.maxQueueSize ++
        " задач, текущее количество: " ++ toString st.tasks.length ++ "."),
      { st with errorStats :=
          { st.errorStats with queue_full_errors := st.errorStats.queue_full_errors + 1 } })
  else
    (.ok freshId,
      { st with tasks := st.tasks ++
          [(freshId, { status := .RUNNING, request := req, result := none, error := none })] })

/-- `get_task_status` (task_manager.py lines 107–110). -/
def getTaskStatus (st : ManagerState) (taskId : String) : Option TaskStatus :=
  (st.lookup taskId).map (·.status)

/-- `get_task_result` (task_manager.py lines 112–117): a result is returned
only when the task exists and its status is DONE. -/
def getTaskResult (st : ManagerState) (taskId : String) : Option OptimizationResult :=
  match st.lookup taskId with
  | some t => if t.status = .DONE then t.result else none
  | none => none

/-- `get_task_error` (task_manager.py lines 119–124). -/
def getTaskError (st : ManagerState) (taskId : String) : Option String :=
  match st.lookup taskId with
  | some t => if t.status = .FAILED then t.error else none
  | none => none

/-- `cleanup_old_tasks` (task_manager.py lines 374–399).  The source
computes `cutoff_time = now - timedelta(hours=hours)` but never consults it:
the collection loop appends *every* task whose status is DONE or FAILED to
`old_tasks` (the `Task` model has no `created_at` attribute), so every
terminal task is deleted regardless of age.  `hours` is therefore dead. -/
def cleanupOldTasks (st : ManagerState) (hours : Nat) : ManagerState :=
  let _ := hours
  { st with tasks :=
      st.tasks.filter (fun p => !(p.2.status = .DONE ∨ p.2.status = .FAILED : Bool)) }

/-- Outcome of racing one pipeline execution against the task timeout
(`asyncio.wait_for` in `_process_task`, task_manager.py lines 171–225):
either the pipeline finished with a result, or it raised, or the timer
expired first. -/
inductive TaskOutcome
  | completed (r : OptimizationResult)
  | failed (msg : String)
  | timeout
deriving DecidableEq, Repr

/-- Best-effort failure classification of `_process_task`'s generic
`except` branch (task_manager.py lines 210–219): string inspection of the
lowered error message. -/
def classifyError (stats : ErrorStats) (errStr : String) : ErrorStats :=
  let low := lowerStr errStr
  let stats :=
    if containsSubstr low "json" || containsSubstr low "модель не вернула" then
      { stats with llm_errors := stats.llm_errors + 1 }
    else if containsSubstr low "валидация" then
      { stats with validation_errors := stats.validation_errors + 1 }
    else if containsSubstr low "401" || containsSubstr low "unauthorized" ||
        containsSubstr low "connection" then
      { stats with database_errors := stats.database_errors + 1 }
    else stats
  { stats with total_errors := stats.total_errors + 1 }

/-- Replace the entry for `taskId` by `t` in the registry (a Python dict
mutation `self.tasks[task_id].field = ...`). -/
def ManagerState.setTask (st : ManagerState) (taskId : String) (t : Task) : ManagerState :=
  { st with tasks := st.tasks.map (fun p => if p.1 == taskId then (p.1, t) else p) }

/-- `_process_task` (task_manager.py lines 158–225) combined with
`_execute_task` (lines 227–260).  On success `_execute_task` first attaches
the result and then transitions the status to DONE; on timeout or any other
exception the task is marked FAILED with the error message attached and the
error counters are updated. -/
def processTask (st : ManagerState) (taskId : String) (timeoutMinutes : Nat)
    (outcome : TaskOutcome) : ManagerState :=
  match st.lookup taskId with
  | none => st
  | some task =>
    match outcome with
    | .completed r =>
        st.setTask taskId { task with result := some r, status := .DONE }
    | .timeout =>
        let msg := "Задача " ++ taskId ++ " превысила лимит времени выполнения (" ++
          toString timeoutMinutes ++ " минут)"
        let st := st.setTask taskId { task with status := .FAILED, error := some msg }
        { st with errorStats :=
            { st.errorStats with
                timeout_errors := st.errorStats.timeout_errors + 1,
                total_errors := st.errorStats.total_errors + 1 } }
    | .failed e =>
        let msg := "Ошибка при выполнении задачи " ++ taskId ++ ": " ++ e
        let st := st.setTask taskId { task with status := .FAILED, error := some msg }
        { st with errorStats := classifyError st.errorStats e }

/-! ## Heuristic table analysis — `_heuristic_analysis` (llm_analyzer.py 463–502) -/

/-- `TableAnalysis`: the per-table strategy record consumed by the
deterministic DDL generator (built at llm_analyzer.py lines 436–442 and
496–502). -/
structure TableAnalysis where
  table_name : String
  original_columns : List (String × String)
  partition_columns : List String
  cluster_columns : List String
  compression : String
deriving DecidableEq, Repr

/-- `col_stat.get("cardinality", 0)` over the per-column statistics dict. -/
def cardinalityOf (columnStats : List (String × Nat)) (col : String) : Nat :=
  ((columnStats.find? (fun p => p.1 == col)).map (·.2)).getD 0

/-- `_heuristic_analysis` (llm_analyzer.py lines 463–502).  Partition
candidates: date/time-named columns of temporal type whose cardinality is
absent (0) or above 10.  Cluster candidates: id/key/code/type/status-named
columns when the row count is unknown (0) or the cardinality is absent (0)
or falls in the band `10 < cardinality < row_count * 0.5` (embedded as
`2 * cardinality < row_count`).  At most 2 partition and 4 cluster columns
are kept. -/
def heuristicAnalysis (tableName : String) (columns : List (String × String))
    (rowCount : Nat) (columnStats : List (String × Nat)) : TableAnalysis :=
  let partitionCols := columns.filterMap (fun col =>
    let colLower := lowerStr col.1
    let typeUpper := upperStr col.2
    let cardinality := cardinalityOf columnStats col.1
    if (["date", "time", "created", "updated"].any (fun kw => containsSubstr colLower kw)) &&
        (["DATE", "TIMESTAMP", "TIME"].any (fun t => containsSubstr typeUpper t)) &&
        (10 < cardinality || cardinality == 0) then
      some col.1
    else none)
  let clusterCols := columns.filterMap (fun col =>
    let colLower := lowerStr col.1
    let cardinality := cardinalityOf columnStats col.1
    if (["id", "key", "code", "type", "status"].any (fun kw => containsSubstr colLower kw)) &&
        (rowCount == 0 || (10 < cardinality && 2 * cardinality < rowCount) ||
          cardinality == 0) then
      some col.1
    else none)
  { table_name := tableName
    original_columns := columns
    partition_columns := partitionCols.take 2
    cluster_columns := clusterCols.take 4
    compression := "ZSTD" }

/-! ## Analysis protocol — retry with repair (llm_analyzer.py 949–1242) -/

/-- Generic JSON values, the target of `json.loads`. -/
inductive Json
  | null
  | bool (b : Bool)
  | num (n : Int)
  | str (s : String)
  | arr (items : List Json)
  | obj (fields : List (String × Json))
deriving Repr

/-- `data.get(key)` on a JSON object. -/
def Json.get? (j : Json) (key : String) : Option Json :=
  match j with
  | .obj fields => (fields.find? (fun p => p.1 == key)).map (·.2)
  | _ => none

/-- One entry of the per-attempt `errors` list, a dict
`{"type": ..., "message": ...}` (llm_analyzer.py lines 1042–1064). -/
structure AttemptError where
  etype : String
  message : String
deriving DecidableEq, Repr

/-- One entry of `all_errors` in `_call_with_retries` (llm_analyzer.py
lines 984–988): the attempt number, the typed failure reasons and the raw
output truncated to 4000 characters. -/
structure AttemptRecord where
  attempt : Nat
  errors : List AttemptError
  raw_output : String
deriving DecidableEq, Repr

/-- The payload of the `LLMAnalyzerError` raised after all attempts fail
(llm_analyzer.py lines 996–1005): the function name and the full
per-attempt history. -/
structure ProtocolError where
  function : String
  attempts : List AttemptRecord
deriving DecidableEq, Repr

/-- `_safe_truncate` (llm_analyzer.py lines 1315–1317). -/
def safeTruncate (text : String) (limit : Nat) : String :=
  if text.length ≤ limit then text else takeStr text limit ++ "... [truncated]"

/-- `_validate_by_function` (llm_analyzer.py lines 1135–1144): the required
field schema for `produce_migrations` — a `migrations` array of objects
each carrying a string `statement`. -/
def validateByFunction (fn : String) (data : Json) : Bool × String :=
  if fn == "produce_migrations" then
    match data.get? "migrations" with
    | some (.arr items) =>
        if items.all (fun item =>
            match item.get? "statement" with
            | some (.str _) => true
            | _ => false) then
          (true, "ok")
        else
          (false, "produce_migrations.migrations[i] must be \x7bstatement: string\x7d")
    | _ => (false, "produce_migrations: missing or invalid \x27migrations\x27 array")
  else
    (false, "unknown function \x27" ++ fn ++ "\x27")

/-- `_build_repair_prompt` (llm_analyzer.py lines 1177–1242).  Braces and
apostrophes in the source prompt text are written with character escapes. -/
def buildRepairPrompt (errors : List AttemptError) (rawOutput : String)
    (functionName : String) : String :=
  let reasons := errors.map (fun e => "- " ++ e.etype ++ ": " ++ e.message)
  let hasJsonError := errors.any (fun e =>
    e.etype == "json_decode_error" || e.etype == "json_not_found")
  let hasSchemaError := errors.any (fun e => e.etype == "schema_validation")
  let reasonsText :=
    if reasons.isEmpty then "- unknown failure" else joinWith "\n" reasons
  let snippet := takeStr rawOutput 800
  let prompt :=
    "REPAIR REQUIRED: Your previous JSON output was invalid.\n" ++
    "Fix the issues and return ONLY valid JSON.\n\nIssues detected:\n" ++
    reasonsText ++ "\n\n"
  let prompt := prompt ++
    (if hasJsonError then
      "CRITICAL JSON SYNTAX ERRORS DETECTED:\n" ++
      "- Remove ALL trailing commas before \x7d or ]\n" ++
      "- Use double quotes (\") for strings, NOT single quotes\n" ++
      "- Do NOT include any text, markdown, or code blocks\n" ++
      "- Do NOT add comments inside JSON\n" ++
      "- Start with \x7b and end with \x7d\n\n"
    else "")
  let prompt := prompt ++
    (if hasSchemaError then
      "SCHEMA VALIDATION ERRORS DETECTED:\n" ++
      "- Ensure all required fields for \x27" ++ functionName ++ "\x27 are present\n" ++
      "- Use full paths: <catalog>.optimized.<table>\n" ++
      "- Check the \x27catalog_name\x27 field in input and use it in ALL paths\n" ++
      "- Each statement must have \x27statement\x27 field\n" ++
      "- Each query must have \x27queryid\x27 and \x27query\x27 fields\n\n" ++
      "PATH FORMAT REMINDER:\n" ++
      "- DDL: CREATE TABLE <catalog_name>.optimized.<table_name>\n" ++
      "- Migration: INSERT INTO <catalog_name>.optimized.<table> SELECT * FROM <catalog_name>.<old_schema>.<table>\n" ++
      "- Query: FROM <catalog_name>.optimized.<table>\n\n"
    else "")
  prompt ++ "Previous invalid output (first 800 chars):\n" ++ snippet ++
    "\n\nFINAL INSTRUCTION: Return ONLY valid JSON, no markdown, no explanations, no extra text."

/-- What the network layer hands back to `_call_llm_function` for one
attempt, abstracting the OpenAI call and the textual JSON extraction
(`_extract_json_from_response`): either the request raised, or the content
was empty, or no balanced JSON span was found, or the candidate span failed
`json.loads`, or a parsed JSON value was extracted. -/
inductive LLMResponse
  | requestError (msg : String)
  | empty
  | noJson (content : String)
  | badJson (snippet : String) (err : String)
  | extracted (jsonStr : String) (parsed : Json)
deriving Repr

/-- The `(ok, obj, raw, errors)` tuple returned by `_call_llm_function`
(llm_analyzer.py line 1014). -/
structure CallOutcome where
  ok : Bool
  obj : Option Json
  raw : Option String
  errs : List AttemptError
deriving Repr

/-- `_call_llm_function` (llm_analyzer.py lines 1007–1065) after the
network layer answered with `resp`: empty content, missing JSON and decode
failures are recorded with their typed reasons; an extracted JSON value is
checked against the required-field schema of `fn`. -/
def callLLMFunction (fn : String) (resp : LLMResponse) : CallOutcome :=
  match resp with
  | .requestError msg => ⟨false, none, none, [⟨"llm_request_error", msg⟩]⟩
  | .empty => ⟨false, none, none, [⟨"empty_llm_response", "Model returned no content"⟩]⟩
  | .noJson content => ⟨false, none, some content, [⟨"json_not_found", "No valid JSON found"⟩]⟩
  | .badJson snippet err => ⟨false, none, some snippet, [⟨"json_decode_error", err⟩]⟩
  | .extracted jsonStr parsed =>
    let v := validateByFunction fn parsed
    if v.1 then ⟨true, some parsed, some jsonStr, []⟩
    else ⟨false, none, some jsonStr, [⟨"schema_validation", v.2⟩]⟩

/-- A producer models the external text-generation capability: attempt
number and optional repair prompt in, raw response out. -/
def Producer := Nat → Option String → LLMResponse

/-- The repair prompt `_call_with_retries` builds before attempt
`attempt` from the latest entry of the history `acc`
(llm_analyzer.py lines 968–973). -/
def repairFor (fname : String) (attempt : Nat) (acc : List AttemptRecord) : Option String :=
  if 1 < attempt then
    acc.getLast?.map (fun last => buildRepairPrompt last.errors last.raw_output fname)
  else none

/-- The loop body of `_call_with_retries` (llm_analyzer.py lines 965–993):
run one attempt, append its record to the history, return the parsed object
immediately on success, recurse otherwise.  `fuel` is the number of
attempts still allowed; on exhaustion the `LLMAnalyzerError` carries the
full history. -/
def callWithRetriesGo (producer : Producer) (fname : String) :
    Nat → List AttemptRecord → Except ProtocolError (Option Json)
  | 0, acc => .error ⟨fname, acc⟩
  | fuel + 1, acc =>
    let attempt := acc.length + 1
    let r := callLLMFunction fname (producer attempt (repairFor fname attempt acc))
    let entry : AttemptRecord := ⟨attempt, r.errs, safeTruncate (r.raw.getD "") 4000⟩
    if r.ok then .ok r.obj
    else callWithRetriesGo producer fname fuel (acc ++ [entry])

/-- `_call_with_retries` (llm_analyzer.py lines 949–1005) with its default
of `max_attempts = 3`. -/
def callWithRetries (producer : Producer) (fname : String) (maxAttempts : Nat) :
    Except ProtocolError (Option Json) :=
  callWithRetriesGo producer fname maxAttempts []

/-- The history of the first `n` attempts as `_call_with_retries` records
it (each attempt's repair prompt is built from the previous record). -/
def attemptRecords (producer : Producer) (fname : String) : Nat → List AttemptRecord
  | 0 => []
  | n + 1 =>
    let prev := attemptRecords producer fname n
    let r := callLLMFunction fname (producer (n + 1) (repairFor fname (n + 1) prev))
    prev ++ [⟨n + 1, r.errs, safeTruncate (r.raw.getD "") 4000⟩]

/-- The outcome of attempt `n` (`n ≥ 1`), repair prompt included. -/
def nthOutcome (producer : Producer) (fname : String) (n : Nat) : CallOutcome :=
  callLLMFunction fname
    (producer n (repairFor fname n (attemptRecords producer fname (n - 1))))

lemma attemptRecords_length (producer : Producer) (fname : String) :
    ∀ n, (attemptRecords producer fname n).length = n := by
  intro n
  induction n with
  | zero => rfl
  | succ n ih => simp [attemptRecords, ih]

lemma nthOutcome_succ (producer : Producer) (fname : String) (n : Nat) :
    nthOutcome producer fname (n + 1) =
      callLLMFunction fname
        (producer (n + 1) (repairFor fname (n + 1) (attemptRecords producer fname n))) := by
  simp [nthOutcome]

lemma attemptRecords_succ (producer : Producer) (fname : String) (n : Nat) :
    attemptRecords producer fname (n + 1) =
      attemptRecords producer fname n ++
        [⟨n + 1, (nthOutcome producer fname (n + 1)).errs,
          safeTruncate ((nthOutcome producer fname (n + 1)).raw.getD "") 4000⟩] := by
  rw [attemptRecords, nthOutcome_succ]

lemma callWithRetriesGo_allFail (producer : Producer) (fname : String) :
    ∀ fuel n,
      (∀ j, 1 ≤ j → j ≤ n + fuel → (nthOutcome producer fname j).ok = false) →
      callWithRetriesGo producer fname fuel (attemptRecords producer fname n) =
        .error ⟨fname, attemptRecords producer fname (n + fuel)⟩ := by
  intro fuel
  induction fuel with
  | zero => intro n _; rfl
  | succ fuel ih =>
    intro n h
    rw [callWithRetriesGo]
    simp only [attemptRecords_length]
    rw [← nthOutcome_succ]
    have hok : (nthOutcome producer fname (n + 1)).ok = false :=
      h (n + 1) (by omega) (by omega)
    rw [hok]
    simp only [Bool.false_eq_true, if_false]
    rw [← attemptRecords_succ]
    have := ih (n + 1) (fun j h1 h2 => h j h1 (by omega))
    rw [this]
    have : n + 1 + fuel = n + (fuel + 1) := by omega
    rw [this]

lemma callWithRetriesGo_success (producer : Producer) (fname : String) :
    ∀ fuel n k, n < k → k ≤ n + fuel →
      (∀ j, n < j → j < k → (nthOutcome producer fname j).ok = false) →
      (nthOutcome producer fname k).ok = true →
      callWithRetriesGo producer fname fuel (attemptRecords producer fname n) =
        .ok (nthOutcome producer fname k).obj := by
  intro fuel
  induction fuel with
  | zero => intro n k h1 h2 _ _; omega
  | succ fuel ih =>
    intro n k h1 h2 hfail hok
    rw [callWithRetriesGo]
    simp only [attemptRecords_length]
    rw [← nthOutcome_succ]
    by_cases hk : k = n + 1
    · subst hk
      rw [hok]
      simp
    · have hlt : n + 1 < k := by omega
      have hfk : (nthOutcome producer fname (n + 1)).ok = false :=
        hfail (n + 1) (by omega) hlt
      rw [hfk]
      simp only [Bool.false_eq_true, if_false]
      rw [← attemptRecords_succ]
      exact ih (n + 1) k hlt (by omega) (fun j hj1 hj2 => hfail j (by omega) hj2) hok

lemma attemptRecords_getElem? (producer : Producer) (fname : String) :
    ∀ n i, i < n →
      (attemptRecords producer fname n)[i]? = some
        ⟨i + 1, (nthOutcome producer fname (i + 1)).errs,
          safeTruncate ((nthOutcome producer fname (i + 1)).raw.getD "") 4000⟩ := by
  intro n
  induction n with
  | zero => intro i h; omega
  | succ n ih =>
    intro i h
    rw [attemptRecords_succ]
    rw [List.getElem?_append]
    by_cases hi : i < n
    · rw [if_pos (by simp [attemptRecords_length]; omega)]
      exact ih i hi
    · have : i = n := by omega
      subst this
      rw [if_neg (by simp [attemptRecords_length])]
      simp [attemptRecords_length]

/-- **C1.** The Analysis Protocol's retry-with-repair call
(`_call_with_retries`): (a) if the attempts before `k` all fail and attempt
`k` (within the budget) yields valid JSON satisfying the required schema,
the call returns exactly attempt `k`'s parsed object — success returns
immediately and no partial results are merged across attempts; (b) for a
producer that never yields a valid response within the budget, the call
fails with the protocol error after exactly `maxAttempts` attempts
(default 3), carrying the full per-attempt history: one record per attempt
holding that attempt's typed errors and truncated raw output. -/
theorem retry_protocol_spec (producer : Producer) (fname : String) (maxAttempts k : Nat) :
    (1 ≤ k → k ≤ maxAttempts →
      (∀ j, 1 ≤ j → j < k → (nthOutcome producer fname j).ok = false) →
      (nthOutcome producer fname k).ok = true →
      callWithRetries producer fname maxAttempts = .ok (nthOutcome producer fname k).obj) ∧
    ((∀ j, 1 ≤ j → j ≤ maxAttempts → (nthOutcome producer fname j).ok = false) →
      callWithRetries producer fname maxAttempts =
        .error ⟨fname, attemptRecords producer fname maxAttempts⟩ ∧
      (attemptRecords producer fname maxAttempts).length = maxAttempts ∧
      (∀ i, i < maxAttempts →
        (attemptRecords producer fname maxAttempts)[i]? = some
          ⟨i + 1, (nthOutcome producer fname (i + 1)).errs,
            safeTruncate ((nthOutcome producer fname (i + 1)).raw.getD "") 4000⟩)) := by
  constructor
  · intro h1 h2 hfail hok
    have := callWithRetriesGo_success producer fname maxAttempts 0 k (by omega) (by omega)
      (fun j hj1 hj2 => hfail j (by omega) hj2) hok
    simpa [callWithRetries, attemptRecords] using this
  · intro hfail
    refine ⟨?_, attemptRecords_length producer fname maxAttempts,
      fun i hi => attemptRecords_getElem? producer fname maxAttempts i hi⟩
    have := callWithRetriesGo_allFail producer fname maxAttempts 0
      (fun j hj1 hj2 => hfail j hj1 (by omega))
    simpa [callWithRetries, attemptRecords] using this

/-- A sample valid `produce_migrations` object for the witness producers. -/
def sampleMigJson : Json :=
  .obj [("migrations", .arr
    [.obj [("statement", .str "INSERT INTO flights.optimized.t SELECT * FROM flights.public.t")]])]

/-- Witness producer: malformed JSON on attempt 1, valid JSON from
attempt 2 on. -/
def repairThenValidProducer : Producer := fun n _ =>
  if n == 1 then .badJson "not json" "Expecting value: line 1 column 1 (char 0)"
  else .extracted "valid span" sampleMigJson

/-- Witness producer that never yields JSON. -/
def neverValidProducer : Producer := fun _ _ => .noJson "free text without JSON"

/-- Witness for C1: the two scenarios of `retry_protocol_spec` realized at
concrete producers with the default budget of 3 attempts. -/
theorem retry_protocol_spec_witness :
    callWithRetries repairThenValidProducer "produce_migrations" 3 = .ok (some sampleMigJson) ∧
    callWithRetries neverValidProducer "produce_migrations" 3 =
      .error ⟨"produce_migrations", attemptRecords neverValidProducer "produce_migrations" 3⟩ ∧
    (attemptRecords neverValidProducer "produce_migrations" 3).length = 3 := by
  refine ⟨?_, ?_, ?_⟩
  · have h := (retry_protocol_spec repairThenValidProducer "produce_migrations" 3 2).1
      (by omega) (by omega)
      (by
        intro j h1 h2
        have : j = 1 := by omega
        subst this
        rfl)
      (by rfl)
    rw [h]
    rfl
  · exact ((retry_protocol_spec neverValidProducer "produce_migrations" 3 1).2
      (by
        intro j h1 h2
        interval_cases j <;> rfl)).1
  · exact ((retry_protocol_spec neverValidProducer "produce_migrations" 3 1).2
      (by
        intro j h1 h2
        interval_cases j <;> rfl)).2.1

/-! ## Orchestrator theorems -/

/-- **C2.** Queue-full behaviour of `create_task`: when the ceiling is
configured (positive) and the number of non-evicted tasks has reached it,
submission fails, the queue-full counter is incremented and the registry is
unchanged; otherwise the submission registers a RUNNING task under the
fresh id and returns that id. -/
theorem create_task_queue_spec (st : ManagerState) (freshId : String)
    (req : OptimizationRequest) :
    (0 < st.maxQueueSize → st.maxQueueSize ≤ st.tasks.length →
      (∃ e, (createTask st freshId req).1 = .error e) ∧
      (createTask st freshId req).2.tasks = st.tasks ∧
      (createTask st freshId req).2.errorStats.queue_full_errors =
        st.errorStats.queue_full_errors + 1) ∧
    (st.tasks.length < st.maxQueueSize ∨ st.maxQueueSize = 0 →
      (createTask st freshId req).1 = .ok freshId ∧
      (createTask st freshId req).2.tasks = st.tasks ++
        [(freshId, { status := .RUNNING, request := req, result := none, error := none })] ∧
      (createTask st freshId req).2.errorStats = st.errorStats) := by
  constructor
  · intro h1 h2
    rw [createTask, if_pos ⟨h1, h2⟩]
    exact ⟨⟨_, rfl⟩, rfl, rfl⟩
  · intro h
    rw [createTask, if_neg (by omega)]
    exact ⟨rfl, rfl, rfl⟩

/-- A concrete well-formed optimization request used by witnesses. -/
def sampleRequest : OptimizationRequest :=
  { url := "jdbc://postgresql://localhost:5432/testdb"
    ddl := [⟨"CREATE TABLE orders (id INTEGER, amount DECIMAL, created_at TIMESTAMP)"⟩]
    queries := [{ queryid := "q1", query := "SELECT * FROM testdb.public.orders", runquantity := 10 }] }

/-- A RUNNING task over `sampleRequest`. -/
def sampleRunningTask : Task :=
  { status := .RUNNING, request := sampleRequest, result := none, error := none }

/-- A concrete optimization result used by witnesses. -/
def sampleResult : OptimizationResult :=
  { ddl := [⟨"CREATE SCHEMA IF NOT EXISTS testdb.optimized"⟩]
    migrations := [⟨"INSERT INTO testdb.optimized.orders SELECT * FROM testdb.public.orders"⟩]
    queries := [{ queryid := "q1", query := "SELECT id, amount, created_at FROM testdb.optimized.orders LIMIT 10000" }]
    quality_score := some 70 }

/-- A registry already holding two tasks with ceiling 2. -/
def fullState : ManagerState :=
  { tasks := [("a", sampleRunningTask), ("b", sampleRunningTask)]
    maxQueueSize := 2, cleanupAfterHours := 24, errorStats := .init }

/-- An empty registry with ceiling 2. -/
def emptyState : ManagerState :=
  { tasks := [], maxQueueSize := 2, cleanupAfterHours := 24, errorStats := .init }

/-- Witness for C2: with ceiling 2 and 2 registered tasks the third
submission is rejected without touching the registry and bumps the counter;
on an empty registry submission registers the RUNNING task and returns the
fresh id. -/
theorem create_task_queue_spec_witness :
    ((∃ e, (createTask fullState "c" sampleRequest).1 = .error e) ∧
      (createTask fullState "c" sampleRequest).2.tasks = fullState.tasks ∧
      (createTask fullState "c" sampleRequest).2.errorStats.queue_full_errors =
        fullState.errorStats.queue_full_errors + 1) ∧
    ((createTask emptyState "c" sampleRequest).1 = .ok "c" ∧
      (createTask emptyState "c" sampleRequest).2.tasks = emptyState.tasks ++
        [("c", { status := .RUNNING, request := sampleRequest, result := none, error := none })] ∧
      (createTask emptyState "c" sampleRequest).2.errorStats = emptyState.errorStats) :=
  ⟨(create_task_queue_spec fullState "c" sampleRequest).1 (by decide) (by decide),
    (create_task_queue_spec emptyState "c" sampleRequest).2 (by left; decide)⟩

/-- A DONE task (result attached) over `sampleRequest`. -/
def sampleDoneTask : Task :=
  { status := .DONE, request := sampleRequest, result := some sampleResult, error := none }

/-- **C5 (counterexample to the retention window, code bug).**  A DONE task
that is *younger* than the retention window — here cleanup runs at the very
instant the task completed, with the default retention of 24 hours — is
nevertheless removed by `cleanup_old_tasks`, because the source never
compares task age against the computed `cutoff_time` (and the `Task` model
stores no creation time at all).  Only the RUNNING task survives.  The
claim's halves about terminal-only removal and RUNNING preservation do
hold; the age condition is the part the code violates. -/
theorem cleanup_removes_fresh_terminal_task :
    cleanupOldTasks
      { tasks := [("d", sampleDoneTask), ("r", sampleRunningTask)]
        maxQueueSize := 100, cleanupAfterHours := 24, errorStats := .init } 24 =
      { tasks := [("r", sampleRunningTask)]
        maxQueueSize := 100, cleanupAfterHours := 24, errorStats := .init } := by
  decide

/-! ## Registry consistency invariant (C10) -/

/-- Per-task consistency: DONE tasks carry a result, FAILED tasks carry an
error message. -/
def taskInv (t : Task) : Prop :=
  (t.status = .DONE → t.result.isSome) ∧ (t.status = .FAILED → t.error.isSome)

/-- The registry invariant: every registered task is consistent. -/
def registryInv (st : ManagerState) : Prop := ∀ p ∈ st.tasks, taskInv p.2

/-- **C10.** The registry consistency invariant is preserved by every
orchestrator operation — task creation (either branch), task execution
(success, failure and timeout) and the cleanup sweep — and the accessors
answer only from the matching terminal state: `get_task_result` yields a
result only for a DONE task (the attached one), `get_task_error` an error
only for a FAILED task. -/
theorem registry_invariant_spec (st : ManagerState) (hinv : registryInv st) :
    (∀ freshId req, registryInv (createTask st freshId req).2) ∧
    (∀ taskId tmin outcome, registryInv (processTask st taskId tmin outcome)) ∧
    (∀ hours, registryInv (cleanupOldTasks st hours)) ∧
    (∀ taskId r, getTaskResult st taskId = some r →
      ∃ t, st.lookup taskId = some t ∧ t.status = .DONE ∧ t.result = some r) ∧
    (∀ taskId e, getTaskError st taskId = some e →
      ∃ t, st.lookup taskId = some t ∧ t.status = .FAILED ∧ t.error = some e) := by
  refine ⟨?_, ?_, ?_, ?_, ?_⟩
  · intro freshId req p hp
    rw [createTask] at hp
    split at hp
    · exact hinv p hp
    · simp only [List.mem_append, List.mem_singleton] at hp
      rcases hp with hp | hp
      · exact hinv p hp
      · subst hp
        exact ⟨by simp, by simp⟩
  · intro taskId tmin outcome p hp
    rw [processTask] at hp
    split at hp
    · exact hinv p hp
    · rename_i task htask
      have setMem : ∀ (t' : Task), taskInv t' →
          ∀ q ∈ (st.setTask taskId t').tasks, taskInv q.2 := by
        intro t' ht' q hq
        simp only [ManagerState.setTask, List.mem_map] at hq
        obtain ⟨q₀, hq₀, hq₀e⟩ := hq
        by_cases hkey : q₀.1 == taskId
        · simp only [hkey, if_pos] at hq₀e
          subst hq₀e
          exact ht'
        · simp only [hkey] at hq₀e
          simp only [Bool.false_eq_true, if_false] at hq₀e
          subst hq₀e
          exact hinv q₀ hq₀
      cases outcome with
      | completed r =>
        exact setMem _ ⟨fun _ => by simp, by simp⟩ p hp
      | timeout =>
        simp only at hp
        exact setMem _ ⟨by simp, fun _ => by simp⟩ p hp
      | failed e =>
        simp only at hp
        exact setMem _ ⟨by simp, fun _ => by simp⟩ p hp
  · intro hours p hp
    rw [cleanupOldTasks] at hp
    simp only [List.mem_filter] at hp
    exact hinv p hp.1
  · intro taskId r hr
    rw [getTaskResult] at hr
    split at hr
    · rename_i t ht
      split at hr
      · exact ⟨t, ht, by assumption, hr⟩
      · exact absurd hr (by simp)
    · exact absurd hr (by simp)
  · intro taskId e he
    rw [getTaskError] at he
    split at he
    · rename_i t ht
      split at he
      · exact ⟨t, ht, by assumption, he⟩
      · exact absurd he (by simp)
    · exact absurd he (by simp)

/-- A one-task RUNNING registry used by the C10 witness. -/
def singleRunningState : ManagerState :=
  { tasks := [("t1", sampleRunningTask)]
    maxQueueSize := 100, cleanupAfterHours := 24, errorStats := .init }

/-- Witness for C10: the invariant of a concrete one-task registry is
preserved across a completed execution, a timeout, a cleanup sweep and a
submission. -/
theorem registry_invariant_spec_witness :
    registryInv (processTask singleRunningState "t1" 20 (.completed sampleResult)) ∧
    registryInv (processTask singleRunningState "t1" 20 .timeout) ∧
    registryInv (cleanupOldTasks singleRunningState 24) ∧
    registryInv (createTask singleRunningState "t2" sampleRequest).2 := by
  have hinv : registryInv singleRunningState := by
    intro p hp
    simp only [singleRunningState, List.mem_singleton] at hp
    subst hp
    exact ⟨by simp [sampleRunningTask], by simp [sampleRunningTask]⟩
  have h := registry_invariant_spec singleRunningState hinv
  exact ⟨h.2.1 "t1" 20 _, h.2.1 "t1" 20 _, h.2.2.1 24, h.1 "t2" sampleRequest⟩

/-! ## Parallel query rewriting — `_optimize_queries_parallel` (llm_analyzer.py 645–707) -/

/-- One entry of the aggregated `optimization_errors` list
(llm_analyzer.py lines 683–687). -/
structure QueryError where
  queryid : String
  error : String
deriving DecidableEq, Repr

/-- The `LLMAnalyzerError` payload raised when any rewrite failed
(llm_analyzer.py lines 701–705). -/
structure BatchError where
  message : String
  optimization_errors : List QueryError
deriving DecidableEq, Repr

/-- `_optimize_one_query` (llm_analyzer.py lines 658–688): the inner
transformation of the query text (`_replace_table_paths_robust` composed
with `_apply_real_optimizations`, which may throw through the AST library)
is the parameter `rewrite`; on success only `queryid` and `query` are
returned, the identifier taken verbatim from the input. -/
def optimizeOneQuery (rewrite : String → Except String String) (q : Query) :
    Except QueryError RewrittenQuery :=
  match rewrite q.query with
  | .ok s => .ok { queryid := q.queryid, query := s }
  | .error e => .error { queryid := q.queryid, error := e }

/-- Extract the error of a failed per-query outcome. -/
def outcomeErr (o : Except QueryError RewrittenQuery) : Option QueryError :=
  match o with
  | .error e => some e
  | .ok _ => none

/-- Extract the result of a successful per-query outcome. -/
def outcomeOk (o : Except QueryError RewrittenQuery) : Option RewrittenQuery :=
  match o with
  | .ok r => some r
  | .error _ => none

/-- `_optimize_queries_parallel` (llm_analyzer.py lines 645–707): all
queries are rewritten, successful results and per-query errors are
collected, and if *any* query failed the whole batch fails with the
aggregate error; otherwise the full list of rewritten queries is returned.
The thread pool runs the independent rewrites side-effect-free; the
embedding collects them in input order (one admissible schedule — the
claims about the batch are order-insensitive). -/
def optimizeQueriesParallel (rewrite : String → Except String String)
    (queries : List Query) : Except BatchError (List RewrittenQuery) :=
  let outcomes := queries.map (optimizeOneQuery rewrite)
  let errors := outcomes.filterMap outcomeErr
  if errors.isEmpty then .ok (outcomes.filterMap outcomeOk)
  else
    .error
      { message := "Не удалось оптимизировать " ++ toString errors.length ++ " из " ++
          toString queries.length ++ " запросов"
        optimization_errors := errors }

lemma optimizeOneQuery_ok_queryid (rewrite : String → Except String String) (q : Query)
    (r : RewrittenQuery) (h : optimizeOneQuery rewrite q = .ok r) : r.queryid = q.queryid := by
  rw [optimizeOneQuery] at h
  split at h
  · cases h; rfl
  · cases h

lemma collectOk_spec (rewrite : String → Except String String) :
    ∀ qs : List Query, (∀ q ∈ qs, ∃ r, optimizeOneQuery rewrite q = .ok r) →
      ((qs.map (optimizeOneQuery rewrite)).filterMap outcomeOk).map (·.queryid) =
        qs.map (·.queryid) ∧
      ((qs.map (optimizeOneQuery rewrite)).filterMap outcomeOk).length = qs.length ∧
      (qs.map (optimizeOneQuery rewrite)).filterMap outcomeErr = [] := by
  intro qs
  induction qs with
  | nil => intro _; exact ⟨rfl, rfl, rfl⟩
  | cons q qs ih =>
    intro h
    obtain ⟨r, hr⟩ := h q (by simp)
    have ihr := ih (fun q' hq' => h q' (by simp [hq']))
    simp only [List.map_cons, List.filterMap_cons, hr, outcomeOk, outcomeErr]
    refine ⟨?_, ?_, ihr.2.2⟩
    · simp only [List.map_cons, optimizeOneQuery_ok_queryid rewrite q r hr, ihr.1]
    · simp only [List.length_cons, ihr.2.1]

/-- **C7.** Fail-together batch semantics of `_optimize_queries_parallel`:
if any individual query rewrite throws, the whole batch fails with the
aggregate of exactly the per-query failures and no partial list of
rewritten queries is returned; if no individual rewrite fails, a rewritten
query is returned for every input query (identifier preserved). -/
theorem batch_fail_together_spec (rewrite : String → Except String String)
    (queries : List Query) :
    ((∃ q ∈ queries, ∃ e, optimizeOneQuery rewrite q = .error e) →
      optimizeQueriesParallel rewrite queries = .error
        { message := "Не удалось оптимизировать " ++
            toString ((queries.map (optimizeOneQuery rewrite)).filterMap outcomeErr).length ++
            " из " ++ toString queries.length ++ " запросов"
          optimization_errors := (queries.map (optimizeOneQuery rewrite)).filterMap outcomeErr } ∧
      (queries.map (optimizeOneQuery rewrite)).filterMap outcomeErr ≠ []) ∧
    ((∀ q ∈ queries, ∃ r, optimizeOneQuery rewrite q = .ok r) →
      optimizeQueriesParallel rewrite queries =
        .ok ((queries.map (optimizeOneQuery rewrite)).filterMap outcomeOk) ∧
      ((queries.map (optimizeOneQuery rewrite)).filterMap outcomeOk).length = queries.length ∧
      ((queries.map (optimizeOneQuery rewrite)).filterMap outcomeOk).map (·.queryid) =
        queries.map (·.queryid)) := by
  constructor
  · intro h
    obtain ⟨q, hq, e, he⟩ := h
    have hmem : e ∈ (queries.map (optimizeOneQuery rewrite)).filterMap outcomeErr := by
      simp only [List.mem_filterMap, List.mem_map]
      exact ⟨optimizeOneQuery rewrite q, ⟨q, hq, rfl⟩, by simp [he, outcomeErr]⟩
    have hne : (queries.map (optimizeOneQuery rewrite)).filterMap outcomeErr ≠ [] := by
      intro hl
      rw [hl] at hmem
      exact absurd hmem (List.not_mem_nil e)
    refine ⟨?_, hne⟩
    rw [optimizeQueriesParallel]
    simp only [List.isEmpty_iff, if_neg hne]
  · intro h
    have hc := collectOk_spec rewrite queries h
    refine ⟨?_, hc.2.1, hc.1⟩
    rw [optimizeQueriesParallel]
    simp only [hc.2.2, List.isEmpty_nil, if_pos]

/-- Witness rewrites for C7: one that always succeeds, one that throws on a
marker text. -/
def alwaysOkRewrite : String → Except String String := fun s => .ok (s ++ "\nLIMIT 10000;")

/-- Witness rewrite that fails on queries containing `boom`. -/
def failingRewrite : String → Except String String := fun s =>
  if containsSubstr s "boom" then .error "parse error" else .ok s

/-- Two-query batch with one poisoned query. -/
def mixedQueries : List Query :=
  [{ queryid := "q1", query := "SELECT 1", runquantity := 1 },
   { queryid := "q2", query := "SELECT boom", runquantity := 1 }]

/-- Witness for C7: the poisoned batch fails as a whole with exactly the
per-query failure aggregated; the clean batch returns one rewritten query
per input with identifiers preserved. -/
theorem batch_fail_together_spec_witness :
    optimizeQueriesParallel failingRewrite mixedQueries = .error
      { message := "Не удалось оптимизировать 1 из 2 запросов"
        optimization_errors := [{ queryid := "q2", error := "parse error" }] } ∧
    optimizeQueriesParallel alwaysOkRewrite mixedQueries =
      .ok [{ queryid := "q1", query := "SELECT 1\nLIMIT 10000;" },
           { queryid := "q2", query := "SELECT boom\nLIMIT 10000;" }] := by
  constructor
  · have h := (batch_fail_together_spec failingRewrite mixedQueries).1
      ⟨{ queryid := "q2", query := "SELECT boom", runquantity := 1 }, by decide,
        { queryid := "q2", error := "parse error" }, by decide⟩
    rw [h.1]
    decide
  · have h := (batch_fail_together_spec alwaysOkRewrite mixedQueries).2
      (by
        intro q hq
        exact ⟨{ queryid := q.queryid, query := q.query ++ "\nLIMIT 10000;" }, rfl⟩)
    rw [h.1]
    decide

/-! ## Per-table analysis — `_analyze_ddl_with_llm` (llm_analyzer.py 361–461) -/

/-- The strategy object parsed from a successful per-table LLM analysis,
after the `.get` defaults of llm_analyzer.py lines 439–441. -/
structure LLMTableStrategy where
  partition_columns : List String
  cluster_columns : List String
  compression : String
deriving DecidableEq, Repr

/-- Per-table statistics gathered by the database connector
(llm_analyzer.py lines 128–133): row count and per-column cardinality. -/
structure TableStatsInfo where
  row_count : Option Nat
  column_stats : List (String × Nat)
deriving DecidableEq, Repr

/-- `_analyze_ddl_with_llm` (llm_analyzer.py lines 361–461).  The SQL
structural extractors (`_extract_table_name_robust`,
`_extract_columns_robust`, whose primary branch is the external `sqlglot`
parser) and the per-table LLM call are parameters; a table whose LLM
analysis yields no JSON falls back to `_heuristic_analysis`.  Statements
without `CREATE TABLE`, without a recognizable table name or without
columns are skipped.  In the LLM branch the partition list is truncated to
2 and the cluster list to 4 entries. -/
def analyzeDdlWithLlm
    (extractTable : String → Option String)
    (extractColumns : String → List (String × String))
    (tableLLM : String → Option LLMTableStrategy)
    (tableStats : String → Option TableStatsInfo)
    (ddl : List Stmt) : List TableAnalysis :=
  ddl.filterMap (fun item =>
    let statement := item.statement
    if !containsSubstr (upperStr statement) "CREATE TABLE" then none
    else
      match extractTable statement with
      | none => none
      | some tableName =>
        let columns := extractColumns statement
        if columns.isEmpty then none
        else
          let stats := tableStats tableName
          let rowCount := (stats.bind (·.row_count)).getD 0
          let columnStats := ((stats.map (·.column_stats)).getD [])
          match tableLLM tableName with
          | some strat =>
            some
              { table_name := tableName
                original_columns := columns
                partition_columns := strat.partition_columns.take 2
                cluster_columns := strat.cluster_columns.take 4
                compression := strat.compression }
          | none => some (heuristicAnalysis tableName columns rowCount columnStats))

/-- The claimed fallback scenario's columns. -/
def scenarioColumns : List (String × String) := [("created_at", "TIMESTAMP"), ("order_id", "VARCHAR")]

/-- **C9.** The local heuristic analysis: (a) with the Analysis Protocol
unavailable (per-table LLM yields nothing) and no cardinality statistics, a
table with a `created_at TIMESTAMP` and an `order_id VARCHAR` column yields
`created_at` as the partition-column candidate and `order_id` as the
cluster-column candidate; (b) every analysis produced — through the LLM
branch or the heuristic — carries at most 2 partition columns and at most 4
cluster columns. -/
theorem heuristic_analysis_spec :
    ((heuristicAnalysis "orders" scenarioColumns 0 []).partition_columns = ["created_at"] ∧
      (heuristicAnalysis "orders" scenarioColumns 0 []).cluster_columns = ["order_id"]) ∧
    (analyzeDdlWithLlm (fun _ => some "orders") (fun _ => scenarioColumns)
        (fun _ => none) (fun _ => none)
        [⟨"CREATE TABLE orders (created_at TIMESTAMP, order_id VARCHAR)"⟩] =
      [heuristicAnalysis "orders" scenarioColumns 0 []]) ∧
    (∀ extractTable extractColumns tableLLM tableStats ddl a,
      a ∈ analyzeDdlWithLlm extractTable extractColumns tableLLM tableStats ddl →
      a.partition_columns.length ≤ 2 ∧ a.cluster_columns.length ≤ 4) := by
  refine ⟨⟨by decide, by decide⟩, by decide, ?_⟩
  intro extractTable extractColumns tableLLM tableStats ddl a ha
  rw [analyzeDdlWithLlm] at ha
  simp only [List.mem_filterMap] at ha
  obtain ⟨item, _, hitem⟩ := ha
  split at hitem
  · cases hitem
  · split at hitem
    · cases hitem
    · split at hitem
      · cases hitem
      · split at hitem
        · cases hitem
          exact ⟨by simp, by simp⟩
        · cases hitem
          rw [heuristicAnalysis]
          exact ⟨by simp, by simp⟩

/-- Witness for C9(b): the bound instantiated at the concrete scenario
table (hypotheses of the bound discharged at a concrete member). -/
theorem heuristic_analysis_spec_witness :
    (heuristicAnalysis "orders" scenarioColumns 0 []).partition_columns.length ≤ 2 ∧
    (heuristicAnalysis "orders" scenarioColumns 0 []).cluster_columns.length ≤ 4 :=
  heuristic_analysis_spec.2.2 (fun _ => some "orders") (fun _ => scenarioColumns)
    (fun _ => none) (fun _ => none)
    [⟨"CREATE TABLE orders (created_at TIMESTAMP, order_id VARCHAR)"⟩]
    (heuristicAnalysis "orders" scenarioColumns 0 [])
    (by rw [heuristic_analysis_spec.2.1]; exact List.mem_singleton.mpr rfl)

/-! ## Deterministic DDL generation — `_generate_ddl_deterministic` (llm_analyzer.py 504–560) -/

/-- `_generate_ddl_deterministic`: one `CREATE SCHEMA` statement for the
optimized namespace first, then one `CREATE TABLE` per analyzed table using
the original column list; partitioning/clustering arrays are included only
for columns confirmed present in the original column list. -/
def generateDdlDeterministic (tablesAnalysis : List TableAnalysis) (catalogName : String) :
    List Stmt :=
  ⟨"CREATE SCHEMA IF NOT EXISTS " ++ catalogName ++ ".optimized"⟩ ::
  tablesAnalysis.map (fun analysis =>
    let columnsSql := joinWith ",\n  "
      (analysis.original_columns.map (fun col => col.1 ++ " " ++ col.2))
    let withParts : List String :=
      ["format = \x27ICEBERG\x27",
       "\x27write.compression-codec\x27 = \x27" ++ analysis.compression ++ "\x27",
       "\x27write.target-file-size-bytes\x27 = \x27268435456\x27",
       "\x27read.vectorization.enabled\x27 = \x27true\x27",
       "\x27write.parquet.compression-codec\x27 = \x27ZSTD\x27",
       "\x27write.parquet.page-size-bytes\x27 = \x271048576\x27",
       "\x27write.parquet.row-group-size-bytes\x27 = \x27134217728\x27"]
    let withParts :=
      if analysis.partition_columns.isEmpty then withParts
      else
        let validPartitions := analysis.partition_columns.filter
          (fun c => analysis.original_columns.any (fun col => col.1 == c))
        if validPartitions.isEmpty then withParts
        else
          withParts.insertIdx 1 ("partitioning = ARRAY[" ++
            joinWith ", " (validPartitions.map (fun c => "\x27" ++ c ++ "\x27")) ++ "]")
    let withParts :=
      if analysis.cluster_columns.isEmpty then withParts
      else
        let validClusters := analysis.cluster_columns.filter
          (fun c => analysis.original_columns.any (fun col => col.1 == c))
        if validClusters.isEmpty then withParts
        else
          let insertPos := if analysis.partition_columns.isEmpty then 1 else 2
          withParts.insertIdx insertPos ("clustering = ARRAY[" ++
            joinWith ", " (validClusters.map (fun c => "\x27" ++ c ++ "\x27")) ++ "]")
    let withClause := joinWith ",\n  " withParts
    ⟨"CREATE TABLE " ++ catalogName ++ ".optimized." ++ analysis.table_name ++ " (\n  " ++
      columnsSql ++ "\n) WITH (\n  " ++ withClause ++ "\n)"⟩)

/-! ## Path validation — `_validate_full_paths` (llm_analyzer.py 1251–1313) -/

/-- One occurrence of the regex `\w+\.optimized\.\w+`: a word character
directly followed by the literal `.optimized.` directly followed by a word
character. -/
def hasOptimizedPathAux : List Char → Bool
  | [] => false
  | c :: rest =>
    (isWordChar c && ".optimized.".toList.isPrefixOf rest &&
      (match rest.drop 11 with
       | d :: _ => isWordChar d
       | [] => false)) || hasOptimizedPathAux rest

/-- `has_optimized_path` (llm_analyzer.py lines 1264–1266). -/
def hasOptimizedPath (s : String) : Bool := hasOptimizedPathAux s.toList

/-- `is_schema_statement` (llm_analyzer.py lines 1268–1270); the regex's
`\s+` is embedded as the single space every statement in this system
uses. -/
def isSchemaStatement (s : String) : Bool := containsSubstr (upperStr s) "CREATE SCHEMA"

/-- The critical errors collected by `_validate_full_paths`
(llm_analyzer.py lines 1272–1295): CREATE TABLE DDL entries and INSERT INTO
migrations must carry a `.optimized.` path (CREATE SCHEMA statements and
SELECT validation queries are skipped; queries yield warnings only, which
do not affect control flow). -/
def validateFullPathsErrors (resultDdl resultMigrations : List Stmt) : List String :=
  (resultDdl.enum.filterMap (fun p =>
    let statement := p.2.statement
    if isSchemaStatement statement then none
    else if containsSubstr (upperStr statement) "CREATE TABLE" && !hasOptimizedPath statement then
      some ("DDL[" ++ toString p.1 ++ "] missing .optimized. path: " ++
        takeStr statement 150 ++ "...")
    else none)) ++
  (resultMigrations.enum.filterMap (fun p =>
    let statement := p.2.statement
    if startsWithStr (stripStr (upperStr statement)) "SELECT" then none
    else if containsSubstr (upperStr statement) "INSERT INTO" && !hasOptimizedPath statement then
      some ("Migration[" ++ toString p.1 ++ "] missing .optimized. path: " ++
        takeStr statement 150 ++ "...")
    else none))

/-! ## Quality evaluation — `_evaluate_result_internal` (llm_analyzer.py 243–359) -/

/-- The score `_evaluate_result_internal` settles on, given the parsed
`score` field of the evaluation model's JSON (`none` models every failure
path: request exception, missing JSON, missing field): failures and
out-of-range scores fall back to the default 70 — this path never
raises. -/
def evaluationScore (evalOutcome : Option Int) : Int :=
  match evalOutcome with
  | none => 70
  | some s => if 1 ≤ s ∧ s ≤ 100 then s else 70

/-! ## The full analysis pipeline — `analyze_database` (llm_analyzer.py 89–238) -/

/-- `mig_obj["migrations"]` of a validated `produce_migrations` object. -/
def migrationsOf (j : Json) : List Stmt :=
  match j.get? "migrations" with
  | some (.arr items) => items.filterMap (fun item =>
      match item.get? "statement" with
      | some (.str s) => some ⟨s⟩
      | _ => none)
  | _ => []

/-- The intermediate result dict `analyze_database` assembles
(llm_analyzer.py lines 196–225): the artifacts plus the quality score the
evaluator put into `_meta`. -/
structure LlmOutput where
  ddl : List Stmt
  migrations : List Stmt
  queries : List RewrittenQuery
  quality_score : Option Int
deriving DecidableEq, Repr

/-- The `LLMAnalyzerError` variants `analyze_database` can raise. -/
inductive AnalyzeError
  | protocolError (e : ProtocolError)
  | optimizationError (e : BatchError)
  | validationError (errors : List String)
deriving DecidableEq, Repr

/-- The human-readable message of each `LLMAnalyzerError`
(llm_analyzer.py lines 1002–1004, 702–704, 1305–1312). -/
def analyzeErrorMessage : AnalyzeError → String
  | .protocolError e => "Модель не вернула валидный JSON для \x27" ++ e.function ++
      "\x27 после " ++ toString e.attempts.length ++ " попыток"
  | .optimizationError be => be.message
  | .validationError errs => "Валидация путей не пройдена: " ++ toString errs.length ++
      " критических ошибок"

/-- `analyze_database` (llm_analyzer.py lines 89–238).  External
collaborators are parameters: the structural extractors, the per-table LLM
analysis, the database statistics (whose absence never blocks the
pipeline), the migrations producer behind the retry protocol, the
per-query rewrite, and the evaluator outcome.  Catalog-name resolution from
the URL/DDL (lines 94–105) is the `catalogName` parameter — no claim
constrains it.  Stage order: per-table analysis, deterministic DDL,
migrations via `_call_with_retries`, parallel query optimization, path
validation, then quality evaluation (which only decorates `_meta`). -/
def analyzeDatabase
    (extractTable : String → Option String)
    (extractColumns : String → List (String × String))
    (tableLLM : String → Option LLMTableStrategy)
    (tableStats : String → Option TableStatsInfo)
    (migProducer : Producer)
    (rewrite : String → Except String String)
    (evalOutcome : Option Int)
    (catalogName : String)
    (req : OptimizationRequest) : Except AnalyzeError LlmOutput :=
  let tablesAnalysis := analyzeDdlWithLlm extractTable extractColumns tableLLM tableStats req.ddl
  let newDdl := generateDdlDeterministic tablesAnalysis catalogName
  match callWithRetries migProducer "produce_migrations" 3 with
  | .error e => .error (.protocolError e)
  | .ok migObj =>
    match optimizeQueriesParallel rewrite req.queries with
    | .error be => .error (.optimizationError be)
    | .ok optimizedQueries =>
      if !(validateFullPathsErrors newDdl (migrationsOf (migObj.getD (.obj [])))).isEmpty then
        .error (.validationError
          (validateFullPathsErrors newDdl (migrationsOf (migObj.getD (.obj [])))))
      else
        .ok { ddl := newDdl, migrations := migrationsOf (migObj.getD (.obj []))
              queries := optimizedQueries, quality_score := some (evaluationScore evalOutcome) }

/-! ## Result creation — task_manager.py 262–359 -/

/-- `_extract_catalog_from_url` of the task manager
(task_manager.py lines 341–359). -/
def tmExtractCatalogFromUrl (url : String) : String :=
  if containsSubstr url "jdbc://" then
    let urlPart := replaceRemove url "jdbc://"
    if containsSubstr urlPart "/" then
      let dbPart := String.mk ((splitOnChar (Char.ofNat 47) urlPart.toList).getLastD [])
      let dbName := if containsSubstr dbPart "?" then
          String.mk ((splitOnChar (Char.ofNat 63) dbPart.toList).headD [])
        else dbPart
      if dbName == "" then "default_catalog" else dbName
    else "default_catalog"
  else "default_catalog"

/-- `_create_result_from_llm` (task_manager.py lines 262–308): empty
artifact lists are filled with placeholders, the quality score is taken
from `_meta` (falling back to 50 when absent).  In this typed embedding the
body is total, so the source's `except`-fallback to the simple result is
unreachable. -/
def createResultFromLlm (llm : LlmOutput) (request : OptimizationRequest) : OptimizationResult :=
  let catalogName := tmExtractCatalogFromUrl request.url
  let ddl := if llm.ddl.isEmpty then
      [⟨"CREATE SCHEMA IF NOT EXISTS " ++ catalogName ++ ".optimized_schema"⟩]
    else llm.ddl
  let migrations := if llm.migrations.isEmpty then [⟨"-- No migrations needed"⟩]
    else llm.migrations
  let queries := if llm.queries.isEmpty then
      request.queries.map (fun q =>
        { queryid := q.queryid
          query := "-- Optimized version of: " ++ takeStr q.query 100 ++ "..." })
    else llm.queries
  { ddl := ddl, migrations := migrations, queries := queries
    quality_score := some (llm.quality_score.getD 50) }

/-- `_create_simple_result` (task_manager.py lines 310–339), the fallback
used when the LLM analyzer is disabled or unavailable. -/
def createSimpleResult (request : OptimizationRequest) : OptimizationResult :=
  let catalogName := tmExtractCatalogFromUrl request.url
  { ddl := [⟨"CREATE SCHEMA " ++ catalogName ++ ".optimized_schema"⟩,
            ⟨"CREATE TABLE " ++ catalogName ++
              ".optimized_schema.optimized_table (id INTEGER, data TEXT)"⟩]
    migrations := [⟨"INSERT INTO " ++ catalogName ++
      ".optimized_schema.optimized_table SELECT 1, \x27test_data\x27"⟩]
    queries := request.queries.map (fun q =>
      { queryid := q.queryid
        query := "SELECT * FROM " ++ catalogName ++
          ".optimized_schema.optimized_table WHERE id = 1" })
    quality_score := some 30 }

/-- `_execute_task` (task_manager.py lines 227–260): with the LLM analyzer
available the pipeline result is packaged through `_create_result_from_llm`
and any `LLMAnalyzerError` propagates with its message; without it the
simple fallback result is produced. -/
def executeTask
    (useLLM : Bool)
    (extractTable : String → Option String)
    (extractColumns : String → List (String × String))
    (tableLLM : String → Option LLMTableStrategy)
    (tableStats : String → Option TableStatsInfo)
    (migProducer : Producer)
    (rewrite : String → Except String String)
    (evalOutcome : Option Int)
    (catalogName : String)
    (req : OptimizationRequest) : Except String OptimizationResult :=
  if useLLM then
    match analyzeDatabase extractTable extractColumns tableLLM tableStats migProducer
        rewrite evalOutcome catalogName req with
    | .error e => .error (analyzeErrorMessage e)
    | .ok llm => .ok (createResultFromLlm llm req)
  else
    .ok (createSimpleResult req)

/-! ## Pipeline theorems (C4, C6) -/

lemma find?_map_set (l : List (String × Task)) (id : String) (t : Task)
    (h : (l.find? (fun p => p.1 == id)).isSome = true) :
    ((l.map (fun p => if p.1 == id then (p.1, t) else p)).find?
      (fun p => p.1 == id)).map (·.2) = some t := by
  induction l with
  | nil => simp at h
  | cons p ps ih =>
    by_cases hp : p.1 == id
    · simp only [List.map_cons, if_pos hp]
      have hfind : List.find? (fun q => q.1 == id)
          ((p.1, t) :: ps.map (fun q => if q.1 == id then (q.1, t) else q)) = some (p.1, t) :=
        List.find?_cons_of_pos _ hp
      rw [hfind]
      rfl
    · rw [List.find?_cons_of_neg _ (by simpa using hp)] at h
      simp only [List.map_cons, if_neg hp]
      rw [List.find?_cons_of_neg _ (by simpa using hp)]
      exact ih h

lemma lookup_setTask_self (st : ManagerState) (taskId : String) (t : Task)
    (h : (st.lookup taskId).isSome = true) :
    (st.setTask taskId t).lookup taskId = some t := by
  rw [ManagerState.lookup] at *
  rw [ManagerState.setTask]
  exact find?_map_set st.tasks taskId t (by simpa using h)

lemma processTask_failed_state (st : ManagerState) (taskId : String) (tmin : Nat)
    (msg : String) (h : (st.lookup taskId).isSome = true) :
    getTaskStatus (processTask st taskId tmin (.failed msg)) taskId = some .FAILED ∧
    getTaskResult (processTask st taskId tmin (.failed msg)) taskId = none ∧
    (getTaskError (processTask st taskId tmin (.failed msg)) taskId).isSome = true := by
  obtain ⟨task, htask⟩ := Option.isSome_iff_exists.mp h
  have hlook : (processTask st taskId tmin (.failed msg)).lookup taskId =
      some { task with
              status := .FAILED
              error := some ("Ошибка при выполнении задачи " ++ taskId ++ ": " ++ msg) } := by
    rw [processTask, htask]
    exact lookup_setTask_self st taskId _ h
  refine ⟨?_, ?_, ?_⟩
  · rw [getTaskStatus, hlook]; rfl
  · rw [getTaskResult, hlook]; rfl
  · rw [getTaskError, hlook]; rfl

lemma optimizeQueriesParallel_ok_ids (rewrite : String → Except String String)
    (qs : List Query) (rs : List RewrittenQuery)
    (h : optimizeQueriesParallel rewrite qs = .ok rs) :
    rs.map (·.queryid) = qs.map (·.queryid) ∧ rs.length = qs.length := by
  rw [optimizeQueriesParallel] at h
  split at h
  · rename_i hempty
    have hall : ∀ q ∈ qs, ∃ r, optimizeOneQuery rewrite q = .ok r := by
      intro q hq
      have hnone : outcomeErr (optimizeOneQuery rewrite q) = none := by
        have := List.isEmpty_iff.mp hempty
        have hfm := List.filterMap_eq_nil_iff.mp this
        exact hfm _ (List.mem_map_of_mem _ hq)
      cases heq : optimizeOneQuery rewrite q with
      | ok r => exact ⟨r, rfl⟩
      | error e =>
        rw [heq] at hnone
        exact absurd hnone (by simp [outcomeErr])
    have hc := collectOk_spec rewrite qs hall
    cases h
    exact ⟨hc.1, hc.2.1⟩
  · cases h

/-- `CREATE SCHEMA`-creation statements, the shape required of the first
new-DDL entry. -/
def isSchemaCreation (s : String) : Bool := "CREATE SCHEMA".toList.isPrefixOf s.toList

lemma isSchemaCreation_append (pre rest : String) (h : isSchemaCreation pre = true) :
    isSchemaCreation (pre ++ rest) = true := by
  rw [isSchemaCreation] at *
  rw [List.isPrefixOf_iff_prefix] at *
  calc "CREATE SCHEMA".toList <+: pre.toList := h
    _ <+: (pre ++ rest).toList := by
        rw [String.toList, String.toList, String.data_append]
        exact List.prefix_append _ _

lemma analyzeDatabase_ok_shape
    (extractTable : String → Option String) (extractColumns : String → List (String × String))
    (tableLLM : String → Option LLMTableStrategy) (tableStats : String → Option TableStatsInfo)
    (migProducer : Producer) (rewrite : String → Except String String)
    (evalOutcome : Option Int) (catalogName : String) (req : OptimizationRequest)
    (out : LlmOutput)
    (h : analyzeDatabase extractTable extractColumns tableLLM tableStats migProducer rewrite
        evalOutcome catalogName req = .ok out) :
    out.ddl = generateDdlDeterministic
      (analyzeDdlWithLlm extractTable extractColumns tableLLM tableStats req.ddl) catalogName ∧
    optimizeQueriesParallel rewrite req.queries = .ok out.queries ∧
    out.quality_score = some (evaluationScore evalOutcome) ∧
    (∃ migObj, callWithRetries migProducer "produce_migrations" 3 = .ok migObj ∧
      out.migrations = migrationsOf (migObj.getD (.obj []))) := by
  rw [analyzeDatabase] at h
  split at h
  · cases h
  · rename_i migObj hmig
    split at h
    · cases h
    · rename_i rs hrs
      split at h
      · cases h
      · cases h
        exact ⟨rfl, hrs, rfl, ⟨migObj, hmig, rfl⟩⟩

/-- **C4.** No silent substitution on definitive failure: whenever
`analyze_database` fails (analysis-protocol exhaustion, query-rewrite
failure or path-validation failure), `_execute_task` propagates the error —
it never produces an `OptimizationResult` — and the orchestrator marks the
task FAILED with the message attached while the result accessor keeps
answering `none`; and the sole exception holds: the Quality Evaluator's
outcome never decides between success and failure and never changes the
artifacts — a failed evaluation only degrades the score to the default
70. -/
theorem no_silent_substitution_spec
    (extractTable : String → Option String) (extractColumns : String → List (String × String))
    (tableLLM : String → Option LLMTableStrategy) (tableStats : String → Option TableStatsInfo)
    (migProducer : Producer) (rewrite : String → Except String String)
    (catalogName : String) (req : OptimizationRequest)
    (st : ManagerState) (taskId : String) (tmin : Nat) :
    (∀ evalOutcome e,
      analyzeDatabase extractTable extractColumns tableLLM tableStats migProducer rewrite
        evalOutcome catalogName req = .error e →
      executeTask true extractTable extractColumns tableLLM tableStats migProducer rewrite
        evalOutcome catalogName req = .error (analyzeErrorMessage e) ∧
      ((st.lookup taskId).isSome = true →
        getTaskStatus (processTask st taskId tmin (.failed (analyzeErrorMessage e))) taskId =
          some .FAILED ∧
        getTaskResult (processTask st taskId tmin (.failed (analyzeErrorMessage e))) taskId =
          none ∧
        (getTaskError (processTask st taskId tmin (.failed (analyzeErrorMessage e)))
          taskId).isSome = true)) ∧
    (∀ e1 e2 out1 out2,
      analyzeDatabase extractTable extractColumns tableLLM tableStats migProducer rewrite
        e1 catalogName req = .ok out1 →
      analyzeDatabase extractTable extractColumns tableLLM tableStats migProducer rewrite
        e2 catalogName req = .ok out2 →
      out1.ddl = out2.ddl ∧ out1.migrations = out2.migrations ∧ out1.queries = out2.queries) ∧
    (∀ out,
      analyzeDatabase extractTable extractColumns tableLLM tableStats migProducer rewrite
        none catalogName req = .ok out → out.quality_score = some 70) ∧
    (∀ e1 e2,
      (∃ out, analyzeDatabase extractTable extractColumns tableLLM tableStats migProducer rewrite
        e1 catalogName req = .ok out) ↔
      (∃ out, analyzeDatabase extractTable extractColumns tableLLM tableStats migProducer rewrite
        e2 catalogName req = .ok out)) := by
  refine ⟨?_, ?_, ?_, ?_⟩
  · intro evalOutcome e he
    constructor
    · rw [executeTask, if_pos rfl, he]
    · intro hsome
      exact processTask_failed_state st taskId tmin (analyzeErrorMessage e) hsome
  · intro e1 e2 out1 out2 h1 h2
    have s1 := analyzeDatabase_ok_shape extractTable extractColumns tableLLM tableStats
      migProducer rewrite e1 catalogName req out1 h1
    have s2 := analyzeDatabase_ok_shape extractTable extractColumns tableLLM tableStats
      migProducer rewrite e2 catalogName req out2 h2
    obtain ⟨m1, hm1, hmig1⟩ := s1.2.2.2
    obtain ⟨m2, hm2, hmig2⟩ := s2.2.2.2
    refine ⟨s1.1.trans s2.1.symm, ?_, ?_⟩
    · have hmm : m1 = m2 := Except.ok.inj (hm1.symm.trans hm2)
      rw [hmig1, hmig2, hmm]
    · exact Except.ok.inj ((s1.2.1).symm.trans (s2.2.1))
  · intro out h
    exact (analyzeDatabase_ok_shape extractTable extractColumns tableLLM tableStats migProducer
      rewrite none catalogName req out h).2.2.1
  · intro e1 e2
    rw [analyzeDatabase, analyzeDatabase]
    split
    · simp
    · split
      · simp
      · split <;> simp

/-- **C6.** Every successful `OptimizationResult` — whether produced from
the LLM pipeline or from the simple fallback — has a schema-creation
statement as the first entry of its new-DDL list, and the rewritten queries
carry exactly the input queries' identifiers, each preserved verbatim. -/
theorem success_result_shape_spec
    (useLLM : Bool)
    (extractTable : String → Option String) (extractColumns : String → List (String × String))
    (tableLLM : String → Option LLMTableStrategy) (tableStats : String → Option TableStatsInfo)
    (migProducer : Producer) (rewrite : String → Except String String)
    (evalOutcome : Option Int) (catalogName : String) (req : OptimizationRequest)
    (res : OptimizationResult)
    (h : executeTask useLLM extractTable extractColumns tableLLM tableStats migProducer rewrite
        evalOutcome catalogName req = .ok res) :
    (∃ s, res.ddl.head? = some s ∧ isSchemaCreation s.statement = true) ∧
    res.queries.map (·.queryid) = req.queries.map (·.queryid) := by
  rw [executeTask] at h
  by_cases hllm : useLLM = true
  · rw [if_pos hllm] at h
    split at h
    · cases h
    · rename_i llm hllm'
      cases h
      have hshape := analyzeDatabase_ok_shape extractTable extractColumns tableLLM tableStats
        migProducer rewrite evalOutcome catalogName req llm hllm'
      have hids := optimizeQueriesParallel_ok_ids rewrite req.queries llm.queries hshape.2.1
      constructor
      · rw [createResultFromLlm]
        simp only
        have hne : llm.ddl.isEmpty = false := by
          rw [hshape.1, generateDdlDeterministic]
          rfl
        rw [if_neg (by simp [hne])]
        rw [hshape.1, generateDdlDeterministic]
        refine ⟨_, rfl, ?_⟩
        exact isSchemaCreation_append "CREATE SCHEMA IF NOT EXISTS " _ (by decide)
      · rw [createResultFromLlm]
        simp only
        by_cases hq : llm.queries.isEmpty
        · rw [if_pos hq]
          have h0 : llm.queries = [] := List.isEmpty_iff.mp hq
          rw [h0] at hids
          have hreq : req.queries = [] := by
            have hl := hids.2
            simp only [List.length_nil] at hl
            exact List.length_eq_zero.mp hl.symm
          rw [hreq]
          rfl
        · rw [if_neg hq]
          exact hids.1
  · rw [if_neg hllm] at h
    cases h
    constructor
    · rw [createSimpleResult]
      refine ⟨_, rfl, ?_⟩
      exact isSchemaCreation_append "CREATE SCHEMA " _ (by decide)
    · rw [createSimpleResult]
      simp only [List.map_map]
      rfl

/-- Trivial extractors for pipeline witnesses (no table recognized). -/
def noneExtractTable : String → Option String := fun _ => none

/-- Trivial column extractor for pipeline witnesses. -/
def noneExtractColumns : String → List (String × String) := fun _ => []

/-- Per-table LLM analysis that always falls back to the heuristic. -/
def noneTableLLM : String → Option LLMTableStrategy := fun _ => none

/-- Absent database statistics (their absence never blocks the pipeline). -/
def noneTableStats : String → Option TableStatsInfo := fun _ => none

/-- The protocol error the never-valid producer provokes at budget 3. -/
def protocolFailureError : AnalyzeError :=
  .protocolError ⟨"produce_migrations", attemptRecords neverValidProducer "produce_migrations" 3⟩

/-- Witness for C4: with a producer that never returns valid JSON, the
pipeline fails with the protocol message, `_execute_task` returns no
result, and the orchestrator marks the concrete task FAILED while its
result accessor answers `none`. -/
theorem no_silent_substitution_spec_witness :
    executeTask true noneExtractTable noneExtractColumns noneTableLLM noneTableStats
      neverValidProducer alwaysOkRewrite none "testdb" sampleRequest =
      .error (analyzeErrorMessage protocolFailureError) ∧
    getTaskStatus (processTask singleRunningState "t1" 20
      (.failed (analyzeErrorMessage protocolFailureError))) "t1" = some .FAILED ∧
    getTaskResult (processTask singleRunningState "t1" 20
      (.failed (analyzeErrorMessage protocolFailureError))) "t1" = none := by
  have h := (no_silent_substitution_spec noneExtractTable noneExtractColumns noneTableLLM
    noneTableStats neverValidProducer alwaysOkRewrite "testdb" sampleRequest
    singleRunningState "t1" 20).1 none protocolFailureError rfl
  exact ⟨h.1, (h.2 rfl).1, (h.2 rfl).2.1⟩

/-- The result the full pipeline produces at the C6 witness input. -/
def pipelineWitnessResult : OptimizationResult :=
  { ddl := [⟨"CREATE SCHEMA IF NOT EXISTS testdb.optimized"⟩]
    migrations := [⟨"INSERT INTO flights.optimized.t SELECT * FROM flights.public.t"⟩]
    queries := [{ queryid := "q1", query := "SELECT * FROM testdb.public.orders\nLIMIT 10000;" }]
    quality_score := some 70 }

/-- Witness for C6: both execution paths at concrete inputs — the simple
fallback result and the full LLM pipeline with a repaired producer — have a
schema-creation statement first and preserve the query identifiers. -/
theorem success_result_shape_spec_witness :
    ((∃ s, (createSimpleResult sampleRequest).ddl.head? = some s ∧
        isSchemaCreation s.statement = true) ∧
      (createSimpleResult sampleRequest).queries.map (·.queryid) =
        sampleRequest.queries.map (·.queryid)) ∧
    (∃ res, executeTask true noneExtractTable noneExtractColumns noneTableLLM noneTableStats
        repairThenValidProducer alwaysOkRewrite none "testdb" sampleRequest = .ok res ∧
      (∃ s, res.ddl.head? = some s ∧ isSchemaCreation s.statement = true) ∧
      res.queries.map (·.queryid) = sampleRequest.queries.map (·.queryid)) := by
  constructor
  · exact success_result_shape_spec false noneExtractTable noneExtractColumns noneTableLLM
      noneTableStats neverValidProducer alwaysOkRewrite none "testdb" sampleRequest
      (createSimpleResult sampleRequest) rfl
  · refine ⟨pipelineWitnessResult, ?_, ?_⟩
    · decide
    · exact success_result_shape_spec true noneExtractTable noneExtractColumns noneTableLLM
        noneTableStats repairThenValidProducer alwaysOkRewrite none "testdb" sampleRequest
        pipelineWitnessResult (by decide)

/-! ## AST-level query rewriting (llm_analyzer.py 758–916)

The source performs these rewrites on the `sqlglot` AST.  The parser and
serializer belong to the external library; the repository's own
manipulations — path qualification of Table nodes, `SELECT *` replacement,
LIMIT injection guarded by the aggregation check — are embedded here on the
AST fragment they inspect. -/

/-- Projections of a SELECT: a lone star, a named column, or `COUNT(*)`
(an `AggFunc` node for `_is_aggregation_sqlglot`). -/
inductive Projection
  | star
  | col (name : String)
  | countStar
deriving DecidableEq, Repr

/-- A sqlglot `Table` node: the `catalog`/`db` properties are `""` when the
reference is not three-part. -/
structure TableRef where
  catalog : String
  db : String
  name : String
deriving DecidableEq, Repr

/-- The fragment of the parsed query the rewrites manipulate: one SELECT
with its projections, FROM table, GROUP BY presence and optional LIMIT. -/
structure SelectQuery where
  projections : List Projection
  fromTable : TableRef
  groupBy : Bool
  limit : Option Nat
deriving DecidableEq, Repr

/-- Per-table metadata extracted from the new DDL
(`_extract_table_metadata`, llm_analyzer.py 709–732). -/
structure TableMeta where
  columns : List String
  partition_columns : List String
  cluster_columns : List String
deriving DecidableEq, Repr

/-- The Table-node mutation of `_replace_table_paths_robust`
(llm_analyzer.py lines 926–930): only references carrying both a catalog
and a schema are touched, and only when the schema is not already
`optimized` (case-insensitively); then the schema becomes `optimized` and
the catalog the configured one. -/
def qualifyTable (catalogName : String) (t : TableRef) : TableRef :=
  if t.catalog ≠ "" ∧ t.db ≠ "" then
    if lowerStr t.db ≠ "optimized" then
      { t with db := "optimized", catalog := catalogName }
    else t
  else t

/-- `_replace_table_paths_robust` on the AST: qualify every table
reference (this fragment carries one). -/
def replaceTablePathsAst (catalogName : String) (q : SelectQuery) : SelectQuery :=
  { q with fromTable := qualifyTable catalogName q.fromTable }

/-- `_replace_select_star_sqlglot` (llm_analyzer.py lines 804–834): a
SELECT whose single projection is a star and whose FROM table has known
metadata with a non-empty column list gets the explicit column list. -/
def replaceSelectStarAst (meta : List (String × TableMeta)) (q : SelectQuery) : SelectQuery :=
  if q.projections = [.star] then
    match (meta.find? (fun p => p.1 == q.fromTable.name)).map (·.2) with
    | some m => if m.columns.isEmpty then q else { q with projections := m.columns.map .col }
    | none => q
  else q

/-- `_has_limit` (llm_analyzer.py line 836). -/
def hasLimitAst (q : SelectQuery) : Bool := q.limit.isSome

/-- An `AggFunc` node such as `COUNT(*)`. -/
def isAggFunc : Projection → Bool
  | .countStar => true
  | _ => false

/-- `_is_aggregation_sqlglot` (llm_analyzer.py lines 844–854): GROUP BY
presence or any aggregate-function node. -/
def isAggregationAst (q : SelectQuery) : Bool := q.groupBy || q.projections.any isAggFunc

/-- `_add_limit_sqlglot` (llm_analyzer.py lines 840–842). -/
def addLimitAst (q : SelectQuery) (n : Nat) : SelectQuery := { q with limit := some n }

/-- `_apply_real_optimizations` (llm_analyzer.py lines 758–802): star
replacement, then the default row limit of 10000 unless the query already
has a limit or is an aggregation.  The partition/cluster usage checks
(lines 785–791) are telemetry only and do not alter the query. -/
def applyRealOptimizationsAst (meta : List (String × TableMeta)) (q : SelectQuery) :
    SelectQuery :=
  let q1 := replaceSelectStarAst meta q
  if !hasLimitAst q1 && !isAggregationAst q1 then addLimitAst q1 10000 else q1

/-- `_optimize_one_query`'s transformation order (llm_analyzer.py
lines 663–672): path qualification first, then the real optimizations. -/
def optimizeOneQueryAst (catalogName : String) (meta : List (String × TableMeta))
    (q : SelectQuery) : SelectQuery :=
  applyRealOptimizationsAst meta (replaceTablePathsAst catalogName q)

/-- Metadata of the C8 scenario: table `orders` with known columns
`[id, amount, created_at]`. -/
def ordersMeta : List (String × TableMeta) :=
  [("orders", { columns := ["id", "amount", "created_at"]
                partition_columns := [], cluster_columns := [] })]

/-- `SELECT * FROM catalog.public.orders`. -/
def starOrdersQuery : SelectQuery :=
  { projections := [.star], fromTable := ⟨"catalog", "public", "orders"⟩
    groupBy := false, limit := none }

/-- `SELECT COUNT(*) FROM catalog.public.orders`. -/
def countOrdersQuery : SelectQuery :=
  { projections := [.countStar], fromTable := ⟨"catalog", "public", "orders"⟩
    groupBy := false, limit := none }

/-- **C8.** Column-pruning and aggregation scenarios: the star query over
`catalog.public.orders` with known columns `[id, amount, created_at]` is
rewritten to the explicit three-column projection against
`catalog.optimized.orders` with the default row limit 10000 appended (no
aggregation, no prior LIMIT); the `COUNT(*)` query gets the path rewrite
but no row limit (aggregation detected). -/
theorem column_pruning_and_aggregation_spec :
    optimizeOneQueryAst "catalog" ordersMeta starOrdersQuery =
      { projections := [.col "id", .col "amount", .col "created_at"]
        fromTable := ⟨"catalog", "optimized", "orders"⟩
        groupBy := false, limit := some 10000 } ∧
    optimizeOneQueryAst "catalog" ordersMeta countOrdersQuery =
      { projections := [.countStar]
        fromTable := ⟨"catalog", "optimized", "orders"⟩
        groupBy := false, limit := none } := by
  decide

/-! ## Textual path qualification — the regex fallback of
`_replace_table_paths_robust` (llm_analyzer.py 939–947)

The fallback branch runs `re.sub` with the pattern `(\w+)\.(\w+)\.(\w+)`:
greedy `\w+` before a literal dot admits no backtracking, so a match at a
position is exactly a maximal word run, a dot, a maximal word run, a dot
and a (maximal) word run; `re.sub` scans left to right, replacing each
non-overlapping match — references whose schema already reads `optimized`
(case-insensitively) are kept, all others become
`<catalog>.optimized.<table>` — and copies one character on failure.  The
scanner below is that semantics over character lists. -/

/-- The maximal `\w+` run at the head, and the rest. -/
def takeWord : List Char → List Char × List Char
  | [] => ([], [])
  | c :: rest =>
    if isWordChar c then
      let p := takeWord rest
      (c :: p.1, p.2)
    else ([], c :: rest)

/-- Head is absent or not a word character (run-maximality witness). -/
def headNotWord : List Char → Bool
  | [] => true
  | c :: _ => !isWordChar c

/-- Matches `\.(\w+)\.(\w+)` after the first run: a dot, a non-empty word
run, a dot and a non-empty word run, returning the two runs and the
rest. -/
def tailMatch (l : List Char) : Option (List Char × List Char × List Char) :=
  match l with
  | [] => none
  | e :: x =>
    if e = '.' then
      if (takeWord x).1.isEmpty then none
      else
        match (takeWord x).2 with
        | [] => none
        | d :: y =>
          if d = '.' then
            if (takeWord y).1.isEmpty then none
            else some ((takeWord x).1, (takeWord y).1, (takeWord y).2)
          else none
    else none

/-- A match of `(\w+)\.(\w+)\.(\w+)` at the head of `s`: the three captured
runs and the rest of the string. -/
def matchTriple (s : List Char) : Option (List Char × List Char × List Char × List Char) :=
  if (takeWord s).1.isEmpty then none
  else
    match tailMatch (takeWord s).2 with
    | some (b, c, r) => some ((takeWord s).1, b, c, r)
    | none => none

/-- Lower-casing of a captured run (`schema.lower()`). -/
def lowerList (w : List Char) : List Char := w.map Char.toLower

/-- The literal schema name the rewrite targets. -/
def optimizedChars : List Char := "optimized".toList

/-- One `re.sub` pass with the replacement function of
`_replace_table_paths_robust` (llm_analyzer.py lines 941–947), driven by
fuel (one unit per scan step; `fuel ≥ length` makes it total). -/
def subPassGo (cat : List Char) : Nat → List Char → List Char
  | 0, l => l
  | _ + 1, [] => []
  | fuel + 1, c :: rest =>
    match matchTriple (c :: rest) with
    | some (a, b, w3, r) =>
      if lowerList b = optimizedChars then
        (a ++ ('.' :: (b ++ ('.' :: w3)))) ++ subPassGo cat fuel r
      else
        (cat ++ ('.' :: (optimizedChars ++ ('.' :: w3)))) ++ subPassGo cat fuel r
    | none => c :: subPassGo cat fuel rest

/-- The full `re.sub` pass. -/
def subPass (cat : List Char) (l : List Char) : List Char := subPassGo cat l.length l

/-- The regex fallback of `_replace_table_paths_robust` as a function on
strings. -/
def replaceTablePathsFallback (query catalogName : String) : String :=
  String.mk (subPass catalogName.toList query.toList)

/-- Scanner deciding that every three-part reference of the string already
points at the `optimized` schema (same scan as `subPassGo`). -/
def allOptimizedGo : Nat → List Char → Bool
  | 0, _ => true
  | _ + 1, [] => true
  | fuel + 1, c :: rest =>
    match matchTriple (c :: rest) with
    | some (_, b, _, r) => decide (lowerList b = optimizedChars) && allOptimizedGo fuel r
    | none => allOptimizedGo fuel rest

/-- Every three-part reference already points at the optimized schema. -/
def allOptimized (l : List Char) : Bool := allOptimizedGo l.length l

/-! ### Structural facts about the scanner -/

lemma takeWord_reconstruct : ∀ l : List Char, (takeWord l).1 ++ (takeWord l).2 = l := by
  intro l
  induction l with
  | nil => rfl
  | cons c rest ih =>
    rw [takeWord]
    by_cases h : isWordChar c
    · simp only [h, if_true, List.cons_append, ih]
    · simp [h]

lemma takeWord_all_word : ∀ l : List Char, ∀ c ∈ (takeWord l).1, isWordChar c = true := by
  intro l
  induction l with
  | nil => intro c hc; cases hc
  | cons d rest ih =>
    intro c hc
    rw [takeWord] at hc
    by_cases h : isWordChar d
    · simp only [h, if_true] at hc
      rcases List.mem_cons.mp hc with rfl | hc
      · exact h
      · exact ih c hc
    · simp [h] at hc

lemma takeWord_snd_headNotWord : ∀ l : List Char, headNotWord (takeWord l).2 = true := by
  intro l
  induction l with
  | nil => rfl
  | cons c rest ih =>
    rw [takeWord]
    by_cases h : isWordChar c
    · simpa [h] using ih
    · simp [h, headNotWord]

lemma takeWord_snd_le : ∀ l : List Char, (takeWord l).2.length ≤ l.length := by
  intro l
  induction l with
  | nil => exact Nat.le_refl _
  | cons c rest ih =>
    rw [takeWord]
    by_cases h : isWordChar c
    · simp only [h, if_true]
      exact Nat.le_succ_of_le ih
    · simp [h]

lemma takeWord_of_append (w X : List Char) (hw : ∀ c ∈ w, isWordChar c = true)
    (hX : headNotWord X = true) : takeWord (w ++ X) = (w, X) := by
  induction w with
  | nil =>
    simp only [List.nil_append]
    cases X with
    | nil => rfl
    | cons c rest =>
      rw [headNotWord] at hX
      rw [takeWord]
      simp only [Bool.not_eq_true'] at hX
      simp [hX]
  | cons c w' ih =>
    have hc : isWordChar c = true := hw c (by simp)
    rw [List.cons_append, takeWord]
    simp only [hc, if_true, ih (fun d hd => hw d (by simp [hd]))]

lemma tailMatch_some (l b c r : List Char) (h : tailMatch l = some (b, c, r)) :
    l = '.' :: (b ++ ('.' :: (c ++ r))) ∧ b ≠ [] ∧ c ≠ [] ∧
    (∀ d ∈ b, isWordChar d = true) ∧ (∀ d ∈ c, isWordChar d = true) ∧
    headNotWord r = true := by
  cases l with
  | nil => rw [tailMatch] at h; cases h
  | cons e x =>
    rw [tailMatch] at h
    split at h
    · rename_i he
      split at h
      · cases h
      · rename_i hb
        split at h
        · cases h
        · rename_i d y hx2
          split at h
          · rename_i hd
            split at h
            · cases h
            · rename_i hc
              injection h with h'
              have h1 : (takeWord x).1 = b := congrArg Prod.fst h'
              have h2 : (takeWord y).1 = c := congrArg (fun z => z.2.1) h'
              have h3 : (takeWord y).2 = r := congrArg (fun z => z.2.2) h'
              refine ⟨?_, ?_, ?_, ?_, ?_, ?_⟩
              · have hx := takeWord_reconstruct x
                rw [h1, hx2] at hx
                have hyr := takeWord_reconstruct y
                rw [h2, h3] at hyr
                rw [he, ← hx, hd, ← hyr]
              · rw [← h1]; simpa using hb
              · rw [← h2]; simpa using hc
              · intro d' hd'; exact takeWord_all_word x d' (h1 ▸ hd')
              · intro d' hd'; exact takeWord_all_word y d' (h2 ▸ hd')
              · rw [← h3]; exact takeWord_snd_headNotWord y
          · cases h
    · cases h

lemma matchTriple_some (s a b c r : List Char)
    (h : matchTriple s = some (a, b, c, r)) :
    s = a ++ ('.' :: (b ++ ('.' :: (c ++ r)))) ∧ a ≠ [] ∧ b ≠ [] ∧ c ≠ [] ∧
    (∀ d ∈ a, isWordChar d = true) ∧ (∀ d ∈ b, isWordChar d = true) ∧
    (∀ d ∈ c, isWordChar d = true) ∧ headNotWord r = true := by
  rw [matchTriple] at h
  split at h
  · cases h
  · rename_i ha
    split at h
    · rename_i t b' c' r' htm
      injection h with h'
      have h1 : (takeWord s).1 = a := congrArg Prod.fst h'
      have h2 : b' = b := congrArg (fun z => z.2.1) h'
      have h3 : c' = c := congrArg (fun z => z.2.2.1) h'
      have h4 : r' = r := congrArg (fun z => z.2.2.2) h'
      rw [h2, h3, h4] at htm
      obtain ⟨hdec, hbne, hcne, hwb, hwc, hhr⟩ := tailMatch_some _ b c r htm
      refine ⟨?_, ?_, hbne, hcne, ?_, hwb, hwc, hhr⟩
      · have hs := takeWord_reconstruct s
        rw [h1, hdec] at hs
        exact hs.symm
      · rw [← h1]; simpa using ha
      · intro d hd; exact takeWord_all_word s d (h1 ▸ hd)
    · cases h

lemma matchTriple_some_length (s a b c r : List Char)
    (h : matchTriple s = some (a, b, c, r)) : r.length + 5 ≤ s.length := by
  obtain ⟨hdec, ha, hb, hc, -, -, -, -⟩ := matchTriple_some s a b c r h
  have hla : 1 ≤ a.length := List.length_pos.mpr ha
  have hlb : 1 ≤ b.length := List.length_pos.mpr hb
  have hlc : 1 ≤ c.length := List.length_pos.mpr hc
  rw [hdec]
  simp only [List.length_append, List.length_cons]
  omega

lemma matchTriple_intro (a b c r : List Char) (ha : a ≠ []) (hb : b ≠ []) (hc : c ≠ [])
    (hwa : ∀ d ∈ a, isWordChar d = true) (hwb : ∀ d ∈ b, isWordChar d = true)
    (hwc : ∀ d ∈ c, isWordChar d = true) (hr : headNotWord r = true) :
    matchTriple (a ++ ('.' :: (b ++ ('.' :: (c ++ r))))) = some (a, b, c, r) := by
  have hdotnw : ∀ X : List Char, headNotWord ('.' :: X) = true := by
    intro X; rw [headNotWord]; decide
  have h1 : takeWord (a ++ ('.' :: (b ++ ('.' :: (c ++ r))))) =
      (a, '.' :: (b ++ ('.' :: (c ++ r)))) := takeWord_of_append _ _ hwa (hdotnw _)
  have h2 : takeWord (b ++ ('.' :: (c ++ r))) = (b, '.' :: (c ++ r)) :=
    takeWord_of_append _ _ hwb (hdotnw _)
  have h3 : takeWord (c ++ r) = (c, r) := takeWord_of_append _ _ hwc hr
  have htail : tailMatch ('.' :: (b ++ ('.' :: (c ++ r)))) = some (b, c, r) := by
    rw [tailMatch]
    simp [h2, h3, List.isEmpty_iff, hb, hc]
  rw [matchTriple]
  simp [h1, List.isEmpty_iff, ha, htail]

lemma matchTriple_headNotWord (c : Char) (rest : List Char) (h : isWordChar c = false) :
    matchTriple (c :: rest) = none := by
  rw [matchTriple, takeWord]
  simp [h]

lemma subPassGo_nil (cat : List Char) : ∀ f, subPassGo cat f [] = [] := by
  intro f; cases f <;> rfl

lemma subPassGo_fuel (cat : List Char) :
    ∀ f1 : Nat, ∀ l : List Char, ∀ f2 : Nat, l.length ≤ f1 → l.length ≤ f2 →
      subPassGo cat f1 l = subPassGo cat f2 l := by
  intro f1
  induction f1 with
  | zero =>
    intro l f2 h1 _
    have : l = [] := List.eq_nil_of_length_eq_zero (Nat.le_zero.mp h1)
    subst this
    rw [subPassGo, subPassGo_nil]
  | succ f1 ih =>
    intro l f2 h1 h2
    cases l with
    | nil => rw [subPassGo_nil, subPassGo_nil]
    | cons c rest =>
      cases f2 with
      | zero => simp at h2
      | succ g =>
        rw [subPassGo, subPassGo]
        cases hm : matchTriple (c :: rest) with
        | none =>
          dsimp only
          simp only [List.length_cons] at h1 h2
          rw [ih rest g (by omega) (by omega)]
        | some t =>
          obtain ⟨a, b, w3, r⟩ := t
          have hlen := matchTriple_some_length _ a b w3 r hm
          dsimp only
          simp only [List.length_cons] at h1 h2 hlen
          rw [ih r g (by omega) (by omega)]

lemma subPass_cons_nomatch (cat : List Char) (c : Char) (rest : List Char)
    (h : matchTriple (c :: rest) = none) :
    subPass cat (c :: rest) = c :: subPass cat rest := by
  rw [subPass, subPass, List.length_cons, subPassGo, h]

lemma subPass_cons_match (cat : List Char) (c : Char) (rest a b w3 r : List Char)
    (h : matchTriple (c :: rest) = some (a, b, w3, r)) :
    subPass cat (c :: rest) =
      (if lowerList b = optimizedChars then a ++ ('.' :: (b ++ ('.' :: w3)))
       else cat ++ ('.' :: (optimizedChars ++ ('.' :: w3)))) ++ subPass cat r := by
  have hlen := matchTriple_some_length _ a b w3 r h
  simp only [List.length_cons] at hlen
  rw [subPass, subPass, List.length_cons, subPassGo, h]
  dsimp only
  have hf : subPassGo cat rest.length r = subPassGo cat r.length r :=
    subPassGo_fuel cat rest.length r r.length (by omega) (Nat.le_refl _)
  split
  · rw [hf]
  · rw [hf]

lemma allOptimizedGo_nil : ∀ f, allOptimizedGo f [] = true := by
  intro f; cases f <;> rfl

lemma allOptimizedGo_fuel :
    ∀ f1 : Nat, ∀ l : List Char, ∀ f2 : Nat, l.length ≤ f1 → l.length ≤ f2 →
      allOptimizedGo f1 l = allOptimizedGo f2 l := by
  intro f1
  induction f1 with
  | zero =>
    intro l f2 h1 _
    have : l = [] := List.eq_nil_of_length_eq_zero (Nat.le_zero.mp h1)
    subst this
    rw [allOptimizedGo_nil, allOptimizedGo_nil]
  | succ f1 ih =>
    intro l f2 h1 h2
    cases l with
    | nil => rw [allOptimizedGo_nil, allOptimizedGo_nil]
    | cons c rest =>
      cases f2 with
      | zero => simp at h2
      | succ g =>
        rw [allOptimizedGo, allOptimizedGo]
        cases hm : matchTriple (c :: rest) with
        | none =>
          dsimp only
          simp only [List.length_cons] at h1 h2
          rw [ih rest g (by omega) (by omega)]
        | some t =>
          obtain ⟨a, b, w3, r⟩ := t
          have hlen := matchTriple_some_length _ a b w3 r hm
          dsimp only
          simp only [List.length_cons] at h1 h2 hlen
          rw [ih r g (by omega) (by omega)]

lemma allOptimized_cons_nomatch (c : Char) (rest : List Char)
    (h : matchTriple (c :: rest) = none) :
    allOptimized (c :: rest) = allOptimized rest := by
  rw [allOptimized, allOptimized, List.length_cons, allOptimizedGo, h]

lemma allOptimized_cons_match (c : Char) (rest a b w3 r : List Char)
    (h : matchTriple (c :: rest) = some (a, b, w3, r)) :
    allOptimized (c :: rest) =
      (decide (lowerList b = optimizedChars) && allOptimized r) := by
  have hlen := matchTriple_some_length _ a b w3 r h
  simp only [List.length_cons] at hlen
  rw [allOptimized, allOptimized, List.length_cons, allOptimizedGo, h]
  dsimp only
  rw [allOptimizedGo_fuel rest.length r r.length (by omega) (Nat.le_refl _)]

lemma subPass_of_allOptimized (cat : List Char) :
    ∀ n : Nat, ∀ l : List Char, l.length ≤ n → allOptimized l = true →
      subPass cat l = l := by
  intro n
  induction n with
  | zero =>
    intro l h _
    have : l = [] := List.eq_nil_of_length_eq_zero (Nat.le_zero.mp h)
    subst this
    rfl
  | succ n ih =>
    intro l hlen hopt
    cases l with
    | nil => rfl
    | cons c rest =>
      simp only [List.length_cons] at hlen
      cases hm : matchTriple (c :: rest) with
      | none =>
        rw [subPass_cons_nomatch _ _ _ hm]
        rw [allOptimized_cons_nomatch _ _ hm] at hopt
        rw [ih rest (by omega) hopt]
      | some t =>
        obtain ⟨a, b, w3, r⟩ := t
        have hlen2 := matchTriple_some_length _ a b w3 r hm
        simp only [List.length_cons] at hlen2
        rw [subPass_cons_match _ _ _ _ _ _ _ hm]
        rw [allOptimized_cons_match _ _ _ _ _ _ hm] at hopt
        rw [Bool.and_eq_true] at hopt
        have hbeq : lowerList b = optimizedChars := of_decide_eq_true hopt.1
        rw [if_pos hbeq, ih r (by omega) hopt.2]
        have hdec := (matchTriple_some _ a b w3 r hm).1
        rw [hdec]
        simp [List.append_assoc]

/-! ### Token-level view of the scan — proof device for idempotence

A string splits uniquely into maximal word runs, dots and other
characters; on such token lists the regex match is a local five-token
pattern, which makes the idempotence argument finite. -/

/-- Tokens: a (maximal) word run, a dot, or any other character. -/
inductive Tok
  | word (w : List Char)
  | dot
  | sym (c : Char)
deriving DecidableEq, Repr

/-- Characters of one token. -/
def detokOne : Tok → List Char
  | .word w => w
  | .dot => ['.']
  | .sym c => [c]

/-- Characters of a token list. -/
def detok (ts : List Tok) : List Char := (ts.map detokOne).flatten

/-- Word-run tokens. -/
def isWordTok : Tok → Bool
  | .word _ => true
  | _ => false

/-- Well-formed single token: word runs are non-empty and word-only, `sym`
holds neither a word character nor a dot. -/
def goodTok : Tok → Bool
  | .word w => !w.isEmpty && w.all isWordChar
  | .dot => true
  | .sym c => !isWordChar c && !(c == '.')

/-- The token list does not start with a word run. -/
def headNotWordTok : List Tok → Bool
  | [] => true
  | t :: _ => !isWordTok t

/-- Well-formed token list: every token good and no two adjacent word runs
(so word tokens are maximal runs of the underlying string). -/
def sepOK : List Tok → Bool
  | [] => true
  | t :: rest => goodTok t && (!isWordTok t || headNotWordTok rest) && sepOK rest

/-- The `(\w+)\.(\w+)\.(\w+)` pattern on tokens: exactly five tokens
word–dot–word–dot–word at the head. -/
def match5 : List Tok → Option (List Char × List Char × List Char × List Tok)
  | .word a :: .dot :: .word b :: .dot :: .word c :: r => some (a, b, c, r)
  | _ => none

/-- The `re.sub` pass on tokens. -/
def passTokGo (cat : List Char) : Nat → List Tok → List Tok
  | 0, ts => ts
  | _ + 1, [] => []
  | fuel + 1, t :: rest =>
    match match5 (t :: rest) with
    | some (a, b, c, r) =>
      if lowerList b = optimizedChars then
        .word a :: .dot :: .word b :: .dot :: .word c :: passTokGo cat fuel r
      else
        .word cat :: .dot :: .word optimizedChars :: .dot :: .word c :: passTokGo cat fuel r
    | none => t :: passTokGo cat fuel rest

/-- The full token pass. -/
def passTok (cat : List Char) (ts : List Tok) : List Tok := passTokGo cat ts.length ts

lemma match5_some (ts : List Tok) (a b c : List Char) (r : List Tok)
    (h : match5 ts = some (a, b, c, r)) :
    ts = .word a :: .dot :: .word b :: .dot :: .word c :: r := by
  cases ts with
  | nil => simp [match5] at h
  | cons t1 r1 =>
    cases t1 with
    | dot => simp [match5] at h
    | sym c1 => simp [match5] at h
    | word a1 =>
      cases r1 with
      | nil => simp [match5] at h
      | cons t2 r2 =>
        cases t2 with
        | word _ => simp [match5] at h
        | sym _ => simp [match5] at h
        | dot =>
          cases r2 with
          | nil => simp [match5] at h
          | cons t3 r3 =>
            cases t3 with
            | dot => simp [match5] at h
            | sym _ => simp [match5] at h
            | word b1 =>
              cases r3 with
              | nil => simp [match5] at h
              | cons t4 r4 =>
                cases t4 with
                | word _ => simp [match5] at h
                | sym _ => simp [match5] at h
                | dot =>
                  cases r4 with
                  | nil => simp [match5] at h
                  | cons t5 r5 =>
                    cases t5 with
                    | dot => simp [match5] at h
                    | sym _ => simp [match5] at h
                    | word c1 =>
                      simp only [match5, Option.some.injEq] at h
                      obtain ⟨h1, h2, h3, h4⟩ :
                          a1 = a ∧ b1 = b ∧ c1 = c ∧ r5 = r := by
                        have g1 := congrArg Prod.fst h
                        have g2 := congrArg (fun z => z.2.1) h
                        have g3 := congrArg (fun z => z.2.2.1) h
                        have g4 := congrArg (fun z => z.2.2.2) h
                        exact ⟨g1, g2, g3, g4⟩
                      subst h1 h2 h3 h4
                      rfl

lemma match5_some_length (ts : List Tok) (a b c : List Char) (r : List Tok)
    (h : match5 ts = some (a, b, c, r)) : r.length + 5 = ts.length := by
  rw [match5_some ts a b c r h]
  simp only [List.length_cons]

lemma passTokGo_nil (cat : List Char) : ∀ f, passTokGo cat f [] = [] := by
  intro f; cases f <;> rfl

lemma passTokGo_fuel (cat : List Char) :
    ∀ f1 : Nat, ∀ ts : List Tok, ∀ f2 : Nat, ts.length ≤ f1 → ts.length ≤ f2 →
      passTokGo cat f1 ts = passTokGo cat f2 ts := by
  intro f1
  induction f1 with
  | zero =>
    intro ts f2 h1 _
    have : ts = [] := List.eq_nil_of_length_eq_zero (Nat.le_zero.mp h1)
    subst this
    rw [passTokGo, passTokGo_nil]
  | succ f1 ih =>
    intro ts f2 h1 h2
    cases ts with
    | nil => rw [passTokGo_nil, passTokGo_nil]
    | cons t rest =>
      cases f2 with
      | zero => simp at h2
      | succ g =>
        rw [passTokGo, passTokGo]
        cases hm : match5 (t :: rest) with
        | none =>
          dsimp only
          simp only [List.length_cons] at h1 h2
          rw [ih rest g (by omega) (by omega)]
        | some q =>
          obtain ⟨a, b, c, r⟩ := q
          have hlen := match5_some_length _ a b c r hm
          dsimp only
          simp only [List.length_cons] at h1 h2 hlen
          rw [ih r g (by omega) (by omega)]

lemma passTok_cons_nomatch (cat : List Char) (t : Tok) (rest : List Tok)
    (h : match5 (t :: rest) = none) :
    passTok cat (t :: rest) = t :: passTok cat rest := by
  rw [passTok, passTok, List.length_cons, passTokGo, h]

lemma passTok_cons_match (cat : List Char) (t : Tok) (rest : List Tok)
    (a b c : List Char) (r : List Tok) (h : match5 (t :: rest) = some (a, b, c, r)) :
    passTok cat (t :: rest) =
      (if lowerList b = optimizedChars then
        ([.word a, .dot, .word b, .dot, .word c] : List Tok)
       else [.word cat, .dot, .word optimizedChars, .dot, .word c]) ++ passTok cat r := by
  have hlen := match5_some_length _ a b c r h
  simp only [List.length_cons] at hlen
  rw [passTok, passTok, List.length_cons, passTokGo, h]
  dsimp only
  have hf : passTokGo cat rest.length r = passTokGo cat r.length r :=
    passTokGo_fuel cat rest.length r r.length (by omega) (Nat.le_refl _)
  split
  · rw [hf]; rfl
  · rw [hf]; rfl

lemma passTok_dot_cons (cat : List Char) (rest : List Tok) :
    passTok cat (.dot :: rest) = .dot :: passTok cat rest :=
  passTok_cons_nomatch cat .dot rest rfl

lemma passTok_sym_cons (cat : List Char) (ch : Char) (rest : List Tok) :
    passTok cat (.sym ch :: rest) = .sym ch :: passTok cat rest :=
  passTok_cons_nomatch cat (.sym ch) rest rfl

lemma passTok_headNotWord (cat : List Char) (ts : List Tok)
    (h : headNotWordTok ts = true) : headNotWordTok (passTok cat ts) = true := by
  cases ts with
  | nil => rfl
  | cons t rest =>
    cases t with
    | word w => simp [headNotWordTok, isWordTok] at h
    | dot => rw [passTok_dot_cons]; rfl
    | sym ch => rw [passTok_sym_cons]; rfl

lemma detok_nil : detok [] = [] := rfl

lemma detok_cons (t : Tok) (ts : List Tok) : detok (t :: ts) = detokOne t ++ detok ts := by
  simp [detok]

lemma sepOK_cons_iff (t : Tok) (rest : List Tok) :
    sepOK (t :: rest) = true ↔
      goodTok t = true ∧ (isWordTok t = true → headNotWordTok rest = true) ∧
        sepOK rest = true := by
  rw [sepOK]
  simp only [Bool.and_eq_true, Bool.or_eq_true, Bool.not_eq_true']
  constructor
  · rintro ⟨⟨hg, hor⟩, hs⟩
    refine ⟨hg, ?_, hs⟩
    intro hw
    rcases hor with h | h
    · rw [hw] at h; cases h
    · exact h
  · rintro ⟨hg, himp, hs⟩
    refine ⟨⟨hg, ?_⟩, hs⟩
    cases hw : isWordTok t with
    | false => exact Or.inl rfl
    | true => exact Or.inr (himp hw)

lemma detok_headNotWord (ts : List Tok) (hsep : sepOK ts = true)
    (h : headNotWordTok ts = true) : headNotWord (detok ts) = true := by
  cases ts with
  | nil => rfl
  | cons t rest =>
    obtain ⟨hg, -, -⟩ := (sepOK_cons_iff t rest).mp hsep
    cases t with
    | word w => simp [headNotWordTok, isWordTok] at h
    | dot =>
      rw [detok_cons]
      rw [show detokOne Tok.dot = ['.'] from rfl]
      rw [List.cons_append]
      rw [headNotWord]
      decide
    | sym ch =>
      rw [detok_cons]
      rw [show detokOne (Tok.sym ch) = [ch] from rfl]
      rw [List.cons_append]
      rw [headNotWord]
      rw [goodTok, Bool.and_eq_true] at hg
      exact hg.1

lemma passTok_nil_eq (cat : List Char) : passTok cat [] = [] := rfl

lemma takeWord_cons_word (c : Char) (rest : List Char) (h : isWordChar c = true) :
    takeWord (c :: rest) = (c :: (takeWord rest).1, (takeWord rest).2) := by
  rw [takeWord]
  simp [h]

lemma goodTok_word_iff (w : List Char) :
    goodTok (.word w) = true ↔ w ≠ [] ∧ ∀ d ∈ w, isWordChar d = true := by
  rw [goodTok]
  simp [List.isEmpty_iff, List.all_eq_true]

lemma sepOK_tail (t : Tok) (rest : List Tok) (h : sepOK (t :: rest) = true) :
    sepOK rest = true := ((sepOK_cons_iff t rest).mp h).2.2

lemma exists_tokenization : ∀ n : Nat, ∀ s : List Char, s.length ≤ n →
    ∃ ts : List Tok, sepOK ts = true ∧ detok ts = s ∧
      headNotWordTok ts = headNotWord s := by
  intro n
  induction n with
  | zero =>
    intro s h
    have : s = [] := List.eq_nil_of_length_eq_zero (Nat.le_zero.mp h)
    subst this
    exact ⟨[], rfl, rfl, rfl⟩
  | succ n ih =>
    intro s hlen
    cases s with
    | nil => exact ⟨[], rfl, rfl, rfl⟩
    | cons c rest =>
      simp only [List.length_cons] at hlen
      by_cases hw : isWordChar c = true
      · have hr_le : (takeWord rest).2.length ≤ n :=
          le_trans (takeWord_snd_le rest) (by omega)
        obtain ⟨tsr, hsep, hdet, hhead⟩ := ih (takeWord rest).2 hr_le
        refine ⟨.word (c :: (takeWord rest).1) :: tsr, ?_, ?_, ?_⟩
        · rw [sepOK_cons_iff]
          refine ⟨?_, ?_, hsep⟩
          · rw [goodTok_word_iff]
            refine ⟨by simp, ?_⟩
            intro d hd
            rcases List.mem_cons.mp hd with rfl | hd
            · exact hw
            · exact takeWord_all_word rest d hd
          · intro _
            rw [hhead]
            exact takeWord_snd_headNotWord rest
        · rw [detok_cons, hdet]
          rw [show detokOne (Tok.word (c :: (takeWord rest).1)) = c :: (takeWord rest).1 from rfl]
          rw [List.cons_append, takeWord_reconstruct rest]
        · rw [headNotWordTok, headNotWord, hw]
          rfl
      · obtain ⟨tsr, hsep, hdet, hhead⟩ := ih rest (by omega)
        have hw' : isWordChar c = false := Bool.eq_false_iff.mpr hw
        by_cases hc : c = '.'
        · refine ⟨.dot :: tsr, ?_, ?_, ?_⟩
          · rw [sepOK_cons_iff]
            exact ⟨rfl, fun h => absurd h (by decide), hsep⟩
          · rw [detok_cons, hdet, hc]
            rfl
          · rw [headNotWordTok, headNotWord, hw']
            decide
        · refine ⟨.sym c :: tsr, ?_, ?_, ?_⟩
          · rw [sepOK_cons_iff]
            refine ⟨?_, fun h => by simp [isWordTok] at h, hsep⟩
            rw [goodTok]
            simp [hw', hc]
          · rw [detok_cons, hdet]
            rfl
          · rw [headNotWordTok, headNotWord, hw']
            rfl

lemma sepOK_match5 (t : Tok) (rest : List Tok) (a b c : List Char) (r : List Tok)
    (hm : match5 (t :: rest) = some (a, b, c, r)) (hsep : sepOK (t :: rest) = true) :
    (a ≠ [] ∧ (∀ d ∈ a, isWordChar d = true)) ∧
    (b ≠ [] ∧ (∀ d ∈ b, isWordChar d = true)) ∧
    (c ≠ [] ∧ (∀ d ∈ c, isWordChar d = true)) ∧
    headNotWordTok r = true ∧ sepOK r = true := by
  have hshape := match5_some _ a b c r hm
  rw [hshape] at hsep
  obtain ⟨hga, -, hsep⟩ := (sepOK_cons_iff _ _).mp hsep
  obtain ⟨-, -, hsep⟩ := (sepOK_cons_iff _ _).mp hsep
  obtain ⟨hgb, -, hsep⟩ := (sepOK_cons_iff _ _).mp hsep
  obtain ⟨-, -, hsep⟩ := (sepOK_cons_iff _ _).mp hsep
  obtain ⟨hgc, hadj, hsep⟩ := (sepOK_cons_iff _ _).mp hsep
  exact ⟨(goodTok_word_iff a).mp hga, (goodTok_word_iff b).mp hgb,
    (goodTok_word_iff c).mp hgc, hadj rfl, hsep⟩

lemma detok_append (xs ys : List Tok) : detok (xs ++ ys) = detok xs ++ detok ys := by
  rw [detok, detok, detok, List.map_append, List.flatten_append]

lemma tailMatch_cons_ne (e : Char) (x : List Char) (h : ¬(e = '.')) :
    tailMatch (e :: x) = none := by
  rw [tailMatch]
  simp [h]

lemma takeWord_of_headNotWord (l : List Char) (h : headNotWord l = true) :
    takeWord l = ([], l) := by
  cases l with
  | nil => rfl
  | cons c rest =>
    rw [headNotWord, Bool.not_eq_true'] at h
    rw [takeWord]
    simp [h]

lemma headNotWord_cons (c : Char) (l : List Char) : headNotWord (c :: l) = !isWordChar c := rfl

lemma tailMatch_dot_eq (x : List Char) :
    tailMatch ('.' :: x) =
      if (takeWord x).1.isEmpty then none
      else
        match (takeWord x).2 with
        | [] => none
        | d :: y =>
          if d = '.' then
            if (takeWord y).1.isEmpty then none
            else some ((takeWord x).1, (takeWord y).1, (takeWord y).2)
          else none := by
  rw [tailMatch, if_pos rfl]

lemma tailMatch_dot_none_of_noword (x : List Char) (h : headNotWord x = true) :
    tailMatch ('.' :: x) = none := by
  rw [tailMatch_dot_eq, takeWord_of_headNotWord x h]
  rfl

lemma goodTok_sym_ne_dot (ch : Char) (h : goodTok (.sym ch) = true) : ¬(ch = '.') := by
  rw [goodTok, Bool.and_eq_true] at h
  have := h.2
  simp only [Bool.not_eq_true', beq_eq_false_iff_ne, ne_eq] at this
  exact this

lemma goodTok_sym_notWord (ch : Char) (h : goodTok (.sym ch) = true) :
    isWordChar ch = false := by
  rw [goodTok, Bool.and_eq_true] at h
  have := h.1
  simpa using this

lemma tailMatch_detok_none (w : List Char) (rest : List Tok)
    (hsep : sepOK (.word w :: rest) = true)
    (hm : match5 (.word w :: rest) = none) :
    tailMatch (detok rest) = none := by
  obtain ⟨hgw, hadj, hsep1⟩ := (sepOK_cons_iff _ _).mp hsep
  cases rest with
  | nil => rw [detok_nil]; rfl
  | cons t2 r2 =>
    cases t2 with
    | word b => exact absurd (hadj rfl) (by simp [headNotWordTok, isWordTok])
    | sym ch =>
      simp only [detok_cons, detokOne, List.cons_append, List.nil_append]
      exact tailMatch_cons_ne ch _
        (goodTok_sym_ne_dot ch ((sepOK_cons_iff _ _).mp hsep1).1)
    | dot =>
      simp only [detok_cons, detokOne, List.cons_append, List.nil_append]
      have hsep2 : sepOK r2 = true := sepOK_tail _ _ hsep1
      cases r2 with
      | nil =>
        rw [detok_nil]
        exact tailMatch_dot_none_of_noword [] rfl
      | cons t3 r3 =>
        cases t3 with
        | dot =>
          apply tailMatch_dot_none_of_noword
          simp only [detok_cons, detokOne, List.cons_append, List.nil_append,
            headNotWord_cons]
          rfl
        | sym ch =>
          apply tailMatch_dot_none_of_noword
          simp only [detok_cons, detokOne, List.cons_append, List.nil_append,
            headNotWord_cons, goodTok_sym_notWord ch ((sepOK_cons_iff _ _).mp hsep2).1]
          rfl
        | word b =>
          obtain ⟨hgb, hadj3, hsep3⟩ := (sepOK_cons_iff _ _).mp hsep2
          obtain ⟨hbne, hbw⟩ := (goodTok_word_iff b).mp hgb
          have hhnw3 : headNotWordTok r3 = true := hadj3 rfl
          have hdr3 : headNotWord (detok r3) = true := detok_headNotWord r3 hsep3 hhnw3
          simp only [detok_cons, detokOne, List.nil_append]
          have htw : takeWord (b ++ detok r3) = (b, detok r3) :=
            takeWord_of_append _ _ hbw hdr3
          rw [tailMatch_dot_eq, htw]
          simp only [List.isEmpty_iff]
          rw [if_neg hbne]
          cases r3 with
          | nil =>
            rw [detok_nil]
          | cons t4 r4 =>
            cases t4 with
            | word _ => exact absurd hhnw3 (by simp [headNotWordTok, isWordTok])
            | sym ch =>
              simp only [detok_cons, detokOne, List.cons_append, List.nil_append]
              have hne := goodTok_sym_ne_dot ch ((sepOK_cons_iff _ _).mp hsep3).1
              rw [if_neg hne]
            | dot =>
              simp only [detok_cons, detokOne, List.cons_append, List.nil_append]
              rw [if_pos trivial]
              have hsep5 : sepOK r4 = true := sepOK_tail _ _ hsep3
              cases r4 with
              | nil =>
                simp [detok_nil, takeWord]
              | cons t5 r5 =>
                cases t5 with
                | dot =>
                  have h0 : headNotWord (detok (Tok.dot :: r5)) = true := by
                    simp only [detok_cons, detokOne, List.cons_append, List.nil_append,
                      headNotWord_cons]
                    rfl
                  rw [takeWord_of_headNotWord _ h0]
                  simp
                | sym ch =>
                  have h0 : headNotWord (detok (Tok.sym ch :: r5)) = true := by
                    simp only [detok_cons, detokOne, List.cons_append, List.nil_append,
                      headNotWord_cons,
                      goodTok_sym_notWord ch ((sepOK_cons_iff _ _).mp hsep5).1]
                    rfl
                  rw [takeWord_of_headNotWord _ h0]
                  simp
                | word c2 =>
                  exfalso
                  simp [match5] at hm

lemma matchTriple_of_tailMatch_none (w X : List Char) (hw : ∀ d ∈ w, isWordChar d = true)
    (hX : headNotWord X = true) (hnm : tailMatch X = none) :
    matchTriple (w ++ X) = none := by
  cases w with
  | nil =>
    rw [List.nil_append, matchTriple, takeWord_of_headNotWord X hX]
    rfl
  | cons d w' =>
    rw [matchTriple, takeWord_of_append _ _ hw hX]
    simp only [List.isEmpty_iff]
    rw [if_neg (by simp), hnm]

lemma subPass_word_copy (cat : List Char) (w X : List Char)
    (hw : ∀ d ∈ w, isWordChar d = true) (hX : headNotWord X = true)
    (hnm : tailMatch X = none) : subPass cat (w ++ X) = w ++ subPass cat X := by
  induction w with
  | nil => simp
  | cons d w' ih =>
    have hmt : matchTriple ((d :: w') ++ X) = none :=
      matchTriple_of_tailMatch_none _ _ hw hX hnm
    rw [List.cons_append, subPass_cons_nomatch cat d (w' ++ X) (by
      rw [← List.cons_append]; exact hmt)]
    rw [ih (fun e he => hw e (by simp [he]))]
    rfl

lemma optimizedChars_good : optimizedChars ≠ [] ∧ ∀ d ∈ optimizedChars, isWordChar d = true := by
  constructor
  · decide
  · decide

lemma lowerList_optimized : lowerList optimizedChars = optimizedChars := by decide

lemma passTok_sepOK (cat : List Char) (hcat : goodTok (.word cat) = true) :
    ∀ n : Nat, ∀ ts : List Tok, ts.length ≤ n → sepOK ts = true →
      sepOK (passTok cat ts) = true := by
  intro n
  induction n with
  | zero =>
    intro ts h _
    have : ts = [] := List.eq_nil_of_length_eq_zero (Nat.le_zero.mp h)
    subst this
    rfl
  | succ n ih =>
    intro ts hlen hsep
    cases ts with
    | nil => rfl
    | cons t rest =>
      simp only [List.length_cons] at hlen
      cases hm : match5 (t :: rest) with
      | none =>
        rw [passTok_cons_nomatch cat t rest hm]
        obtain ⟨hg, hadjacency, hsep'⟩ := (sepOK_cons_iff t rest).mp hsep
        rw [sepOK_cons_iff]
        refine ⟨hg, ?_, ih rest (by omega) hsep'⟩
        intro hword
        exact passTok_headNotWord cat rest (hadjacency hword)
      | some q =>
        obtain ⟨a, b, c, r⟩ := q
        have hlen5 := match5_some_length _ a b c r hm
        simp only [List.length_cons] at hlen5
        obtain ⟨⟨hane, haw⟩, ⟨hbne, hbw⟩, ⟨hcne, hcw⟩, hhnr, hsepr⟩ :=
          sepOK_match5 t rest a b c r hm hsep
        rw [passTok_cons_match cat t rest a b c r hm]
        have hsr : sepOK (passTok cat r) = true := ih r (by omega) hsepr
        have hhr : headNotWordTok (passTok cat r) = true :=
          passTok_headNotWord cat r hhnr
        have htail : sepOK (Tok.word c :: passTok cat r) = true := by
          rw [sepOK_cons_iff]
          exact ⟨(goodTok_word_iff c).mpr ⟨hcne, hcw⟩, fun _ => hhr, hsr⟩
        split
        · simp only [List.cons_append, List.nil_append]
          rw [sepOK_cons_iff]
          refine ⟨(goodTok_word_iff a).mpr ⟨hane, haw⟩, fun _ => rfl, ?_⟩
          rw [sepOK_cons_iff]
          refine ⟨rfl, fun h => absurd h (by decide), ?_⟩
          rw [sepOK_cons_iff]
          refine ⟨(goodTok_word_iff b).mpr ⟨hbne, hbw⟩, fun _ => rfl, ?_⟩
          rw [sepOK_cons_iff]
          exact ⟨rfl, fun h => absurd h (by decide), htail⟩
        · simp only [List.cons_append, List.nil_append]
          rw [sepOK_cons_iff]
          refine ⟨hcat, fun _ => rfl, ?_⟩
          rw [sepOK_cons_iff]
          refine ⟨rfl, fun h => absurd h (by decide), ?_⟩
          rw [sepOK_cons_iff]
          refine ⟨(goodTok_word_iff optimizedChars).mpr optimizedChars_good,
            fun _ => rfl, ?_⟩
          rw [sepOK_cons_iff]
          exact ⟨rfl, fun h => absurd h (by decide), htail⟩

lemma match5_passTok_none (cat : List Char) (t : Tok) (rest : List Tok)
    (hsep : sepOK (t :: rest) = true) (hm : match5 (t :: rest) = none) :
    match5 (t :: passTok cat rest) = none := by
  cases t with
  | dot => rfl
  | sym ch => rfl
  | word a =>
    obtain ⟨-, -, hsep1⟩ := (sepOK_cons_iff _ _).mp hsep
    cases rest with
    | nil => rfl
    | cons t2 r2 =>
      cases t2 with
      | word b =>
        obtain ⟨-, hadjacency, -⟩ := (sepOK_cons_iff _ _).mp hsep
        exact absurd (hadjacency rfl) (by simp [headNotWordTok, isWordTok])
      | sym ch => rw [passTok_sym_cons]; rfl
      | dot =>
        rw [passTok_dot_cons]
        have hsep2 : sepOK r2 = true := sepOK_tail _ _ hsep1
        cases r2 with
        | nil => rfl
        | cons t3 r3 =>
          cases t3 with
          | dot => rw [passTok_dot_cons]; rfl
          | sym ch => rw [passTok_sym_cons]; rfl
          | word b =>
            have hsep3 : sepOK r3 = true := sepOK_tail _ _ hsep2
            cases hm2 : match5 (Tok.word b :: r3) with
            | some q =>
              obtain ⟨x, y, z, r5⟩ := q
              have hshape := match5_some _ x y z r5 hm2
              exfalso
              rw [hshape] at hm
              simp [match5] at hm
            | none =>
              rw [passTok_cons_nomatch _ _ _ hm2]
              obtain ⟨-, hadj2, -⟩ := (sepOK_cons_iff _ _).mp hsep2
              cases r3 with
              | nil => rfl
              | cons t4 r4 =>
                cases t4 with
                | word _ =>
                  exact absurd (hadj2 rfl) (by simp [headNotWordTok, isWordTok])
                | sym ch => rw [passTok_sym_cons]; rfl
                | dot =>
                  rw [passTok_dot_cons]
                  have hsep4 : sepOK r4 = true := sepOK_tail _ _ hsep3
                  cases r4 with
                  | nil => rfl
                  | cons t5 r5 =>
                    cases t5 with
                    | dot => rw [passTok_dot_cons]; rfl
                    | sym ch => rw [passTok_sym_cons]; rfl
                    | word c2 =>
                      exfalso
                      simp [match5] at hm

lemma passTok_idem (cat : List Char) :
    ∀ n : Nat, ∀ ts : List Tok, ts.length ≤ n → sepOK ts = true →
      passTok cat (passTok cat ts) = passTok cat ts := by
  intro n
  induction n with
  | zero =>
    intro ts h _
    have : ts = [] := List.eq_nil_of_length_eq_zero (Nat.le_zero.mp h)
    subst this
    rfl
  | succ n ih =>
    intro ts hlen hsep
    cases ts with
    | nil => rfl
    | cons t rest =>
      simp only [List.length_cons] at hlen
      cases hm : match5 (t :: rest) with
      | none =>
        rw [passTok_cons_nomatch cat t rest hm]
        have hnone2 := match5_passTok_none cat t rest hsep hm
        rw [passTok_cons_nomatch cat t _ hnone2]
        rw [ih rest (by omega) (sepOK_tail _ _ hsep)]
      | some q =>
        obtain ⟨a, b, c, r⟩ := q
        have hlen5 := match5_some_length _ a b c r hm
        simp only [List.length_cons] at hlen5
        obtain ⟨-, -, -, -, hsepr⟩ := sepOK_match5 t rest a b c r hm hsep
        rw [passTok_cons_match cat t rest a b c r hm]
        have hrec : passTok cat (passTok cat r) = passTok cat r :=
          ih r (by omega) hsepr
        split
        · rename_i hb
          simp only [List.cons_append, List.nil_append]
          rw [passTok_cons_match cat (Tok.word a)
            (Tok.dot :: Tok.word b :: Tok.dot :: Tok.word c :: passTok cat r)
            a b c (passTok cat r) rfl]
          rw [if_pos hb, hrec]
          rfl
        · rename_i hb
          simp only [List.cons_append, List.nil_append]
          rw [passTok_cons_match cat (Tok.word cat)
            (Tok.dot :: Tok.word optimizedChars :: Tok.dot :: Tok.word c :: passTok cat r)
            cat optimizedChars c (passTok cat r) rfl]
          rw [if_pos lowerList_optimized, hrec]
          rfl

lemma subPass_eq_of_match (cat : List Char) (l a b w3 r : List Char)
    (h : matchTriple l = some (a, b, w3, r)) :
    subPass cat l =
      (if lowerList b = optimizedChars then a ++ ('.' :: (b ++ ('.' :: w3)))
       else cat ++ ('.' :: (optimizedChars ++ ('.' :: w3)))) ++ subPass cat r := by
  obtain ⟨hdec, ha, -⟩ := matchTriple_some l a b w3 r h
  cases l with
  | nil =>
    exfalso
    cases a with
    | nil => exact ha rfl
    | cons a0 a' => simp at hdec
  | cons c rest => exact subPass_cons_match cat c rest a b w3 r h

lemma subPass_detok (cat : List Char) :
    ∀ n : Nat, ∀ ts : List Tok, ts.length ≤ n → sepOK ts = true →
      subPass cat (detok ts) = detok (passTok cat ts) := by
  intro n
  induction n with
  | zero =>
    intro ts h _
    have : ts = [] := List.eq_nil_of_length_eq_zero (Nat.le_zero.mp h)
    subst this
    rfl
  | succ n ih =>
    intro ts hlen hsep
    cases ts with
    | nil => rfl
    | cons t rest =>
      simp only [List.length_cons] at hlen
      cases hm : match5 (t :: rest) with
      | some q =>
        obtain ⟨a, b, c, r⟩ := q
        have hlen5 := match5_some_length _ a b c r hm
        simp only [List.length_cons] at hlen5
        obtain ⟨⟨hane, haw⟩, ⟨hbne, hbw⟩, ⟨hcne, hcw⟩, hhnr, hsepr⟩ :=
          sepOK_match5 t rest a b c r hm hsep
        have hshape := match5_some _ a b c r hm
        injection hshape with ht hrest
        subst ht hrest
        have hD : headNotWord (detok r) = true := detok_headNotWord r hsepr hhnr
        have hmt : matchTriple (a ++ ('.' :: (b ++ ('.' :: (c ++ detok r))))) =
            some (a, b, c, detok r) :=
          matchTriple_intro a b c (detok r) hane hbne hcne haw hbw hcw hD
        have hdetL : detok (Tok.word a :: Tok.dot :: Tok.word b :: Tok.dot ::
            Tok.word c :: r) = a ++ ('.' :: (b ++ ('.' :: (c ++ detok r)))) := by
          simp [detok_cons, detokOne]
        rw [hdetL, subPass_eq_of_match cat _ a b c (detok r) hmt]
        rw [passTok_cons_match cat _ _ a b c r hm]
        rw [ih r (by omega) hsepr]
        by_cases hb : lowerList b = optimizedChars
        · rw [if_pos hb, if_pos hb, detok_append]
          simp [detok_cons, detokOne, detok_nil]
        · rw [if_neg hb, if_neg hb, detok_append]
          simp [detok_cons, detokOne, detok_nil]
      | none =>
        obtain ⟨hg, hadjacency, hsep'⟩ := (sepOK_cons_iff t rest).mp hsep
        cases t with
        | dot =>
          have hdet : detok (Tok.dot :: rest) = '.' :: detok rest := by
            simp [detok_cons, detokOne]
          rw [hdet, subPass_cons_nomatch cat _ _
            (matchTriple_headNotWord _ _ (by decide)), ih rest (by omega) hsep',
            passTok_dot_cons]
          simp [detok_cons, detokOne]
        | sym ch =>
          have hdet : detok (Tok.sym ch :: rest) = ch :: detok rest := by
            simp [detok_cons, detokOne]
          rw [hdet, subPass_cons_nomatch cat _ _
            (matchTriple_headNotWord _ _ (goodTok_sym_notWord ch hg)),
            ih rest (by omega) hsep', passTok_sym_cons]
          simp [detok_cons, detokOne]
        | word w =>
          obtain ⟨hwne, hww⟩ := (goodTok_word_iff w).mp hg
          have hhn : headNotWordTok rest = true := hadjacency rfl
          have hD : headNotWord (detok rest) = true := detok_headNotWord rest hsep' hhn
          have htm : tailMatch (detok rest) = none := tailMatch_detok_none w rest hsep hm
          have hdet : detok (Tok.word w :: rest) = w ++ detok rest := by
            simp [detok_cons, detokOne]
          rw [hdet, subPass_word_copy cat w (detok rest) hww hD htm,
            ih rest (by omega) hsep', passTok_cons_nomatch cat _ _ hm]
          simp [detok_cons, detokOne]

/-- **C3.** Path qualification never requalifies and is idempotent:
(a) the textual fallback rewrite leaves unchanged any query whose
three-part table references all already point at the `optimized` schema;
(b) when the configured catalog name is a plain identifier (non-empty,
word characters only — every catalog this system extracts), applying the
fallback rewrite twice equals applying it once (no double-prefixing);
(c) the AST-branch Table-node rewrite is idempotent unconditionally. -/
theorem path_qualification_idempotent (query catalogName : String) :
    (allOptimized query.toList = true →
      replaceTablePathsFallback query catalogName = query) ∧
    (catalogName.toList ≠ [] → (∀ c ∈ catalogName.toList, isWordChar c = true) →
      replaceTablePathsFallback (replaceTablePathsFallback query catalogName) catalogName =
        replaceTablePathsFallback query catalogName) ∧
    (∀ t : TableRef, qualifyTable catalogName (qualifyTable catalogName t) =
      qualifyTable catalogName t) := by
  refine ⟨?_, ?_, ?_⟩
  · intro hopt
    rw [replaceTablePathsFallback,
      subPass_of_allOptimized catalogName.toList query.toList.length query.toList
        (Nat.le_refl _) hopt]
    cases query
    rfl
  · intro hne hword
    have hcat : goodTok (.word catalogName.toList) = true :=
      (goodTok_word_iff catalogName.toList).mpr ⟨hne, hword⟩
    simp only [replaceTablePathsFallback]
    have hmk : (String.mk (subPass catalogName.toList query.toList)).toList =
        subPass catalogName.toList query.toList := rfl
    rw [hmk]
    obtain ⟨ts, hsep, hdet, -⟩ :=
      exists_tokenization query.toList.length query.toList (Nat.le_refl _)
    have e1 : subPass catalogName.toList query.toList =
        detok (passTok catalogName.toList ts) := by
      rw [← hdet]
      exact subPass_detok catalogName.toList ts.length ts (Nat.le_refl _) hsep
    have hsep' : sepOK (passTok catalogName.toList ts) = true :=
      passTok_sepOK catalogName.toList hcat ts.length ts (Nat.le_refl _) hsep
    have e2 : subPass catalogName.toList (detok (passTok catalogName.toList ts)) =
        detok (passTok catalogName.toList (passTok catalogName.toList ts)) :=
      subPass_detok catalogName.toList (passTok catalogName.toList ts).length
        (passTok catalogName.toList ts) (Nat.le_refl _) hsep'
    have e3 : passTok catalogName.toList (passTok catalogName.toList ts) =
        passTok catalogName.toList ts :=
      passTok_idem catalogName.toList ts.length ts (Nat.le_refl _) hsep
    rw [e1, e2, e3]
  · intro t
    have hopt : lowerStr "optimized" = "optimized" := by decide
    by_cases h1 : t.catalog ≠ "" ∧ t.db ≠ ""
    · by_cases h2 : lowerStr t.db ≠ "optimized"
      · have hin : qualifyTable catalogName t =
            { t with db := "optimized", catalog := catalogName } := by
          rw [qualifyTable, if_pos h1, if_pos h2]
        rw [hin, qualifyTable]
        by_cases h3 :
            ({ t with db := "optimized", catalog := catalogName } : TableRef).catalog ≠ "" ∧
            ({ t with db := "optimized", catalog := catalogName } : TableRef).db ≠ ""
        · rw [if_pos h3, if_neg (fun hcon => hcon hopt)]
        · rw [if_neg h3]
      · have hin : qualifyTable catalogName t = t := by
          rw [qualifyTable, if_pos h1, if_neg h2]
        rw [hin]
        exact hin
    · have hin : qualifyTable catalogName t = t := by
        rw [qualifyTable, if_neg h1]
      rw [hin]
      exact hin

/-- Witness for C3: a query already pointing at the optimized schema is
left unchanged; double application on a concrete unqualified query equals
single application for the identifier catalog `flights`; the AST rewrite at
a concrete three-part reference is idempotent. -/
theorem path_qualification_idempotent_witness :
    replaceTablePathsFallback "SELECT id FROM flights.optimized.orders" "flights" =
      "SELECT id FROM flights.optimized.orders" ∧
    replaceTablePathsFallback
      (replaceTablePathsFallback "SELECT * FROM catalog.public.orders" "flights")
      "flights" =
      replaceTablePathsFallback "SELECT * FROM catalog.public.orders" "flights" ∧
    qualifyTable "flights" (qualifyTable "flights" ⟨"catalog", "public", "orders"⟩) =
      qualifyTable "flights" ⟨"catalog", "public", "orders"⟩ := by
  refine ⟨?_, ?_, ?_⟩
  · exact (path_qualification_idempotent "SELECT id FROM flights.optimized.orders"
      "flights").1 (by decide)
  · exact (path_qualification_idempotent "SELECT * FROM catalog.public.orders"
      "flights").2.1 (by decide) (by decide)
  · exact (path_qualification_idempotent "" "flights").2.2 ⟨"catalog", "public", "orders"⟩
